import Mathlib

/-!
Verification development for the knot-resolver core sources
(`lib/dnssec.c`, `lib/utils.c`, `lib/context.c`).

The C code is shallowly embedded: pure computations become Lean functions on
inductive data, pointer-based in/out parameters become explicit state passing,
and calls into external libraries (libknot wire parsing, libdnssec
cryptography, the NSEC/NSEC3 proof modules, the cache and delegation map)
are modelled as components of explicit environment records, since their code
is not part of the embedded sources.  NULL-pointer guard branches of the C
functions are not represented: every embedded argument is a value, which in
the C corresponds to a non-null pointer.
-/

namespace KnotResolver

/-! ## Error codes (`lib/defines.h` convention: `kr_error(x) = -x`) -/

def EINVAL : Nat := 22
def ENOENT : Nat := 2
def ENOMEM : Nat := 12
def EEXIST : Nat := 17

def kr_error (e : Nat) : Int := -(e : Int)

def kr_ok : Int := 0

/-! ## Domain names

A `knot_dname_t` is modelled as its list of labels (each label a list of
bytes), root label excluded.  Case-insensitive comparison
(`knot_dname_is_equal`, `knot_dname_cmp … = 0`) becomes equality after
ASCII lowercasing. -/

abbrev Dname := List (List Nat)

def lowerByte (b : Nat) : Nat :=
  if 65 ≤ b ∧ b ≤ 90 then b + 32 else b

def dnameLower (d : Dname) : Dname :=
  d.map (fun l => l.map lowerByte)

/-- `knot_dname_is_equal` / `knot_dname_cmp … == 0`: case-insensitive equality. -/
def dnameEqb (a b : Dname) : Bool :=
  dnameLower a = dnameLower b

/-- `knot_dname_labels`: number of labels (root excluded). -/
def dname_labels (d : Dname) : Nat := d.length

/-- `knot_dname_is_wildcard`: first label is a sole asterisk (byte 42). -/
def dname_is_wildcard (d : Dname) : Bool :=
  match d with
  | l :: _ => l = [42]
  | [] => false

/-- Wire form of a domain name: length-prefixed labels, terminated by a zero byte. -/
def dnameWire (d : Dname) : List Nat :=
  (d.flatMap (fun l => l.length :: l)) ++ [0]

/-! ## RR sets and packets

An rdata is kept in two views: the raw wire bytes (`knot_rdata_data`) and the
parsed RRSIG field view used by the `knot_rrsig_*` accessors when the RR is an
RRSIG.  The wire→parsed parsing is done by libknot outside the embedded
sources, so the relation between the two views is not constrained. -/

structure RRSIGRData where
  type_covered : Nat
  algorithm : Nat
  labels : Nat
  orig_ttl : Nat
  sig_expiration : Nat
  sig_inception : Nat
  key_tag : Nat
  signer_name : Dname
  signature : List Nat
  deriving DecidableEq, Repr

def defaultSig : RRSIGRData :=
  ⟨0, 0, 0, 0, 0, 0, 0, [], []⟩

structure Rdata where
  raw : List Nat
  sig : RRSIGRData
  deriving DecidableEq, Repr

def defaultRdata : Rdata := ⟨[], defaultSig⟩

structure RRset where
  owner : Dname
  rclass : Nat
  rtype : Nat
  rrs : List Rdata
  deriving DecidableEq, Repr

def RRTYPE_RRSIG : Nat := 46
def RRTYPE_DNSKEY : Nat := 48

inductive SectionId where
  | answer
  | authority
  | additional
  deriving DecidableEq, Repr

structure Packet where
  answer : List RRset
  authority : List RRset
  additional : List RRset
  deriving DecidableEq, Repr

/-- `knot_pkt_section`. -/
def pktSection (pkt : Packet) : SectionId → List RRset
  | .answer => pkt.answer
  | .authority => pkt.authority
  | .additional => pkt.additional

/-! ## DNSKEY flag predicates (`lib/dnssec.c`) -/

/-- `wire_read_u16`: big-endian 16-bit read of the first two rdata bytes. -/
def wire_read_u16 (b : List Nat) : Nat :=
  b.getD 0 0 * 256 + b.getD 1 0

/-- `kr_dnssec_key_zsk`: `wire_read_u16(rdata) & 0x0100`. -/
def kr_dnssec_key_zsk (dnskey_rdata : List Nat) : Bool :=
  wire_read_u16 dnskey_rdata &&& 0x0100 ≠ 0

/-- `kr_dnssec_key_ksk`: `wire_read_u16(rdata) & 0x0001`. -/
def kr_dnssec_key_ksk (dnskey_rdata : List Nat) : Bool :=
  wire_read_u16 dnskey_rdata &&& 0x0001 ≠ 0

/-- `kr_dnssec_key_revoked`: `wire_read_u16(rdata) & 0x0080`. -/
def kr_dnssec_key_revoked (dnskey_rdata : List Nat) : Bool :=
  wire_read_u16 dnskey_rdata &&& 0x0080 ≠ 0

/-- `knot_dnskey_alg`: the algorithm octet of a DNSKEY rdata (offset 3). -/
def knot_dnskey_alg (rrs : List Rdata) (pos : Nat) : Nat :=
  (rrs.getD pos defaultRdata).raw.getD 3 0

/-! ## The external-crypto environment

`dseckey` handles are opaque; functions provided by libdnssec and by the
NSEC/NSEC3 proof modules (`lib/dnssec/signature.c`, `lib/dnssec/nsec.c`,
`lib/dnssec/nsec3.c`), which are not among the embedded sources, are fields
of this record. -/

abbrev DnssecKey := Nat

structure DnssecEnv where
  /-- `dnssec_key_new` + `dnssec_key_set_rdata` + `dnssec_key_set_dname`:
  builds a key handle from owner and rdata; first component is the
  `kr_error` code (0 on success). -/
  key_new : Option Dname → List Nat → Int × DnssecKey
  /-- `dnssec_key_get_keytag`. -/
  keytag : DnssecKey → Nat
  /-- `kr_check_signature(rrsigs, sig_pos, key, covered, trim_labels)`. -/
  check_signature : RRset → Nat → DnssecKey → RRset → Int → Int
  /-- `kr_nsec_wildcard_answer_response_check(pkt, section_id, sname)`. -/
  nsec_wildcard_check : Packet → SectionId → Dname → Int
  /-- `kr_nsec3_wildcard_answer_response_check(pkt, section_id, sname, trim_to_next)`. -/
  nsec3_wildcard_check : Packet → SectionId → Dname → Int → Int
  /-- `kr_authenticate_referral(ref, key)`. -/
  authenticate_referral : RRset → DnssecKey → Int

/-- `kr_dnssec_key_from_rdata` (the `rdlen == 0` guard is in the embedded
source; key construction itself is libdnssec). -/
def kr_dnssec_key_from_rdata (env : DnssecEnv) (kown : Option Dname)
    (rdata : List Nat) : Int × DnssecKey :=
  if rdata.isEmpty then (kr_error EINVAL, 0)
  else env.key_new kown rdata

/-! ## `validate_rrsig_rr` (RFC 4035 5.3.1 checks) -/

def FLG_WILDCARD_EXPANSION : Nat := 0x01

/-- `validate_rrsig_rr`: returns the `kr_error` code together with the
updated `*flags` value.  The flags output reflects every write the C code
performed before returning (the wildcard bit is set in bullet 4 even when a
later bullet fails). -/
def validate_rrsig_rr (flags : Nat) (covered : RRset) (rrsigs : RRset)
    (sig_pos : Nat) (keys : RRset) (key_pos : Nat) (key : DnssecKey)
    (env : DnssecEnv) (zone_name : Dname) (timestamp : Nat) : Int × Nat :=
  /- bullet 1 -/
  if covered.rclass ≠ rrsigs.rclass ∨ ¬ dnameEqb covered.owner rrsigs.owner then
    (kr_error EINVAL, flags)
  else
    /- bullet 2 (a missing rdata at sig_pos is the NULL signer_name case) -/
    match rrsigs.rrs.get? sig_pos with
    | none => (kr_error EINVAL, flags)
    | some rd =>
      if ¬ dnameEqb rd.sig.signer_name zone_name then (kr_error EINVAL, flags)
      else
      /- bullet 3 -/
      if rd.sig.type_covered ≠ covered.rtype then (kr_error EINVAL, flags)
      else
        /- bullet 4 -/
        let rrsig_labels : Int := rd.sig.labels
        let dname_lbls : Int := (dname_labels covered.owner : Int) -
          (if dname_is_wildcard covered.owner then 1 else 0)
        if rrsig_labels > dname_lbls then (kr_error EINVAL, flags)
        else
          let flags' := if rrsig_labels < dname_lbls
                        then flags ||| FLG_WILDCARD_EXPANSION else flags
          /- bullet 5 -/
          if rd.sig.sig_expiration < timestamp then (kr_error EINVAL, flags')
          /- bullet 6 -/
          else if rd.sig.sig_inception > timestamp then (kr_error EINVAL, flags')
          /- bullet 7 -/
          else if ¬ dnameEqb keys.owner rd.sig.signer_name ∨
                  knot_dnskey_alg keys.rrs key_pos ≠ rd.sig.algorithm ∨
                  env.keytag key ≠ rd.sig.key_tag then
            (kr_error EINVAL, flags')
          else
            (kr_ok, flags')

/-- `wildcard_radix_len_diff`: `knot_dname_labels(expanded) - knot_rrsig_labels(rrsigs, sig_pos)`. -/
def wildcard_radix_len_diff (expanded : Dname) (rrsigs : RRset) (sig_pos : Nat) : Int :=
  (dname_labels expanded : Int) - ((rrsigs.rrs.getD sig_pos defaultRdata).sig.labels : Int)

/-! ## `kr_rrset_validate_with_key`

The two nested loops of the C function are embedded as structural recursions
threading the mutable `ret` variable: `sigLoop` is the inner loop over the
rdata positions of one RRSIG RR set, `secLoop` the outer loop over the RR
sets of the section. -/

/-- Inner loop body of `kr_rrset_validate_with_key` over signature positions.
`ret` is the running value of the C `ret` variable. -/
def sigLoop (env : DnssecEnv) (pkt : Packet) (covered : RRset) (keys : RRset)
    (key_pos : Nat) (key : DnssecKey) (zone_name : Dname) (timestamp : Nat)
    (has_nsec3 : Bool) (rrsig : RRset) : List Nat → Int → Int
  | [], ret => ret
  | j :: rest, ret =>
    let vr := validate_rrsig_rr 0 covered rrsig j keys key_pos key env zone_name timestamp
    if vr.1 ≠ 0 then
      sigLoop env pkt covered keys key_pos key zone_name timestamp has_nsec3 rrsig rest ret
    else
      let wild := vr.2 &&& FLG_WILDCARD_EXPANSION ≠ 0
      let trim_labels : Int := if wild then wildcard_radix_len_diff covered.owner rrsig j else 0
      if wild ∧ trim_labels < 0 then ret
      else if env.check_signature rrsig j key covered trim_labels ≠ 0 then
        sigLoop env pkt covered keys key_pos key zone_name timestamp has_nsec3 rrsig rest ret
      else if wild then
        let r2 := if ¬ has_nsec3 then
            env.nsec_wildcard_check pkt .authority covered.owner
          else
            env.nsec3_wildcard_check pkt .authority covered.owner (trim_labels - 1)
        if r2 ≠ 0 then
          sigLoop env pkt covered keys key_pos key zone_name timestamp has_nsec3 rrsig rest r2
        else kr_ok
      else kr_ok

/-- Outer loop of `kr_rrset_validate_with_key` over the RR sets of the section. -/
def secLoop (env : DnssecEnv) (pkt : Packet) (covered : RRset) (keys : RRset)
    (key_pos : Nat) (key : DnssecKey) (zone_name : Dname) (timestamp : Nat)
    (has_nsec3 : Bool) : List RRset → Int → Int
  | [], ret => ret
  | rrsig :: rest, ret =>
    if rrsig.rtype ≠ RRTYPE_RRSIG then
      secLoop env pkt covered keys key_pos key zone_name timestamp has_nsec3 rest ret
    else
      let ret2 := sigLoop env pkt covered keys key_pos key zone_name timestamp has_nsec3
        rrsig (List.range rrsig.rrs.length) ret
      if ret2 = kr_ok then ret2
      else secLoop env pkt covered keys key_pos key zone_name timestamp has_nsec3 rest ret2

/-- The part of `kr_rrset_validate_with_key` after the key has been obtained. -/
def validateWithObtainedKey (env : DnssecEnv) (pkt : Packet) (section_id : SectionId)
    (covered : RRset) (keys : RRset) (key_pos : Nat) (key : DnssecKey)
    (zone_name : Dname) (timestamp : Nat) (has_nsec3 : Bool) : Int :=
  secLoop env pkt covered keys key_pos key zone_name timestamp has_nsec3
    (pktSection pkt section_id) (kr_error ENOENT)

/-- `kr_rrset_validate_with_key`.  A `none` key is the C `key == NULL` case:
the key is built from the DNSKEY rdata at `key_pos`. -/
def kr_rrset_validate_with_key (env : DnssecEnv) (pkt : Packet)
    (section_id : SectionId) (covered : RRset) (keys : RRset) (key_pos : Nat)
    (key : Option DnssecKey) (zone_name : Dname) (timestamp : Nat)
    (has_nsec3 : Bool) : Int :=
  match key with
  | none =>
    let krr := keys.rrs.getD key_pos defaultRdata
    let ck := kr_dnssec_key_from_rdata env (some keys.owner) krr.raw
    if ck.1 ≠ 0 then ck.1
    else validateWithObtainedKey env pkt section_id covered keys key_pos ck.2
      zone_name timestamp has_nsec3
  | some k =>
    validateWithObtainedKey env pkt section_id covered keys key_pos k
      zone_name timestamp has_nsec3

/-- `kr_rrset_validate`: try every key position with a freshly created key. -/
def kr_rrset_validate_go (env : DnssecEnv) (pkt : Packet) (section_id : SectionId)
    (covered : RRset) (keys : RRset) (zone_name : Dname) (timestamp : Nat)
    (has_nsec3 : Bool) : List Nat → Int
  | [] => kr_error ENOENT
  | i :: rest =>
    if kr_rrset_validate_with_key env pkt section_id covered keys i none
        zone_name timestamp has_nsec3 = 0 then 0
    else kr_rrset_validate_go env pkt section_id covered keys zone_name timestamp
      has_nsec3 rest

def kr_rrset_validate (env : DnssecEnv) (pkt : Packet) (section_id : SectionId)
    (covered : RRset) (keys : RRset) (zone_name : Dname) (timestamp : Nat)
    (has_nsec3 : Bool) : Int :=
  kr_rrset_validate_go env pkt section_id covered keys zone_name timestamp has_nsec3
    (List.range keys.rrs.length)

/-! ### Specification-side views of the validator loop -/

/-- The trim value the validator computes for signature `j`: the wildcard
radix length difference when the wildcard-expansion flag was set, else 0. -/
def sigTrim (env : DnssecEnv) (covered rrsig keys : RRset) (key_pos : Nat)
    (key : DnssecKey) (zone_name : Dname) (timestamp : Nat) (j : Nat) : Int :=
  if (validate_rrsig_rr 0 covered rrsig j keys key_pos key env zone_name
      timestamp).2 &&& FLG_WILDCARD_EXPANSION ≠ 0
  then wildcard_radix_len_diff covered.owner rrsig j else 0

/-- The wildcard answer response check the validator performs over the
authority section: NSEC without NSEC3 in the zone, NSEC3 with
closest-encloser parameter `trim_labels - 1` otherwise. -/
def wcCheckResult (env : DnssecEnv) (pkt : Packet) (covered rrsig : RRset)
    (has_nsec3 : Bool) (trim_labels : Int) : Int :=
  if ¬ has_nsec3 then env.nsec_wildcard_check pkt .authority covered.owner
  else env.nsec3_wildcard_check pkt .authority covered.owner (trim_labels - 1)

/-- Signature `j` of `rrsig` is accepted by the validator: the RFC 4035
5.3.1 checks pass, the cryptographic check passes with the computed trim,
and, when the wildcard-expansion flag was set, the wildcard answer response
check over the authority section also passed. -/
def acceptedSigAt (env : DnssecEnv) (pkt : Packet) (covered keys : RRset)
    (key_pos : Nat) (key : DnssecKey) (zone_name : Dname) (timestamp : Nat)
    (has_nsec3 : Bool) (rrsig : RRset) (j : Nat) : Prop :=
  (validate_rrsig_rr 0 covered rrsig j keys key_pos key env zone_name
    timestamp).1 = 0 ∧
  env.check_signature rrsig j key covered
    (sigTrim env covered rrsig keys key_pos key zone_name timestamp j) = 0 ∧
  ((validate_rrsig_rr 0 covered rrsig j keys key_pos key env zone_name
      timestamp).2 &&& FLG_WILDCARD_EXPANSION ≠ 0 →
    wcCheckResult env pkt covered rrsig has_nsec3
      (wildcard_radix_len_diff covered.owner rrsig j) = 0)

/-- The key `kr_rrset_validate_with_key` works with: the supplied key, or
the one built from the DNSKEY rdata at `key_pos` when none is supplied. -/
def usedKey (env : DnssecEnv) (keys : RRset) (key_pos : Nat) :
    Option DnssecKey → Int × DnssecKey
  | some k => (0, k)
  | none => kr_dnssec_key_from_rdata env (some keys.owner)
      ((keys.rrs.getD key_pos defaultRdata).raw)

/-- There is an RRSIG RR in the section covering the RR set (same owner,
class and covered type), in validity window at `ts`, with signer equal to
the zone cut, matching key tag, whose signature check under `key`
succeeded. -/
def goodSigExists (env : DnssecEnv) (pkt : Packet) (sid : SectionId)
    (covered keys : RRset) (key_pos : Nat) (key : DnssecKey) (zone : Dname)
    (ts : Nat) : Prop :=
  ∃ rrsig ∈ pktSection pkt sid, rrsig.rtype = RRTYPE_RRSIG ∧
    ∃ j rd, rrsig.rrs.get? j = some rd ∧
      dnameEqb covered.owner rrsig.owner = true ∧
      covered.rclass = rrsig.rclass ∧
      dnameEqb rd.sig.signer_name zone = true ∧
      rd.sig.sig_inception ≤ ts ∧ ts ≤ rd.sig.sig_expiration ∧
      rd.sig.type_covered = covered.rtype ∧
      env.keytag key = rd.sig.key_tag ∧
      ∃ trim, env.check_signature rrsig j key covered trim = 0

/-! ## `kr_dnskeys_trusted` -/

/-- Loop of `kr_dnskeys_trusted`: each failed check `continue`s to the next
key position. -/
def kr_dnskeys_trusted_go (env : DnssecEnv) (pkt : Packet) (section_id : SectionId)
    (keys : RRset) (ta : RRset) (zone_name : Dname) (timestamp : Nat)
    (has_nsec3 : Bool) : List Nat → Int
  | [] => kr_error ENOENT
  | i :: rest =>
    let key_data := (keys.rrs.getD i defaultRdata).raw
    if ¬ kr_dnssec_key_zsk key_data ∨ kr_dnssec_key_revoked key_data then
      kr_dnskeys_trusted_go env pkt section_id keys ta zone_name timestamp has_nsec3 rest
    else
      let ck := kr_dnssec_key_from_rdata env (some keys.owner) key_data
      if ck.1 ≠ 0 then
        kr_dnskeys_trusted_go env pkt section_id keys ta zone_name timestamp has_nsec3 rest
      else if env.authenticate_referral ta ck.2 ≠ 0 then
        kr_dnskeys_trusted_go env pkt section_id keys ta zone_name timestamp has_nsec3 rest
      else if kr_rrset_validate_with_key env pkt section_id keys keys i (some ck.2)
          zone_name timestamp has_nsec3 ≠ 0 then
        kr_dnskeys_trusted_go env pkt section_id keys ta zone_name timestamp has_nsec3 rest
      else kr_ok

def kr_dnskeys_trusted (env : DnssecEnv) (pkt : Packet) (section_id : SectionId)
    (keys : RRset) (ta : RRset) (zone_name : Dname) (timestamp : Nat)
    (has_nsec3 : Bool) : Int :=
  kr_dnskeys_trusted_go env pkt section_id keys ta zone_name timestamp has_nsec3
    (List.range keys.rrs.length)

/-- Specification-side predicate: the DNSKEY at position `i` is useable for
the trust chain: (a) it is a ZSK and not revoked, (b) it parses and
authenticates against the referral (trust anchor / DS set), and (c) the
DNSKEY RR set validates under that very key. -/
def goodTrustedKey (env : DnssecEnv) (pkt : Packet) (section_id : SectionId)
    (keys : RRset) (ta : RRset) (zone_name : Dname) (timestamp : Nat)
    (has_nsec3 : Bool) (i : Nat) : Prop :=
  kr_dnssec_key_zsk ((keys.rrs.getD i defaultRdata).raw) = true ∧
  kr_dnssec_key_revoked ((keys.rrs.getD i defaultRdata).raw) = false ∧
  (kr_dnssec_key_from_rdata env (some keys.owner)
    ((keys.rrs.getD i defaultRdata).raw)).1 = 0 ∧
  env.authenticate_referral ta
    (kr_dnssec_key_from_rdata env (some keys.owner)
      ((keys.rrs.getD i defaultRdata).raw)).2 = 0 ∧
  kr_rrset_validate_with_key env pkt section_id keys keys i
    (some (kr_dnssec_key_from_rdata env (some keys.owner)
      ((keys.rrs.getD i defaultRdata).raw)).2)
    zone_name timestamp has_nsec3 = 0

/-! ## Ranked RR array (`lib/utils.c`) -/

structure RankedEntry where
  qry_uid : Nat
  rr : RRset
  rank : Nat
  revalidation_cnt : Nat
  cached : Bool
  yielded : Bool
  to_wire : Bool
  deriving DecidableEq, Repr

def defaultEntry : RankedEntry :=
  ⟨0, ⟨[], 0, 0, []⟩, 0, 0, false, false, false⟩

/-- `rrsets_match`: same type and class, same covered type when the type is
RRSIG (`knot_rrsig_type_covered` reads the first rdata), equal owners. -/
def rrsets_match (rr1 rr2 : RRset) : Bool :=
  let m1 := rr1.rtype == rr2.rtype && rr1.rclass == rr2.rclass
  let m2 := if m1 && (rr2.rtype == RRTYPE_RRSIG) then
      m1 && ((rr1.rrs.headD defaultRdata).sig.type_covered
              == (rr2.rrs.headD defaultRdata).sig.type_covered)
    else m1
  m2 && dnameEqb rr1.owner rr2.owner

/-- `to_wire_ensure_unique(array, index)`: clear `to_wire` on every entry of a
different query UID forming the same RR set as entry `index`.  (The C iterates
backwards; the effect is order-independent, so a `map` is used.) -/
def to_wire_ensure_unique (array : List RankedEntry) (index : Nat) :
    Int × List RankedEntry :=
  if index < array.length then
    let e0 := array.getD index defaultEntry
    if ¬ e0.to_wire then (kr_ok, array)
    else
      (kr_ok, array.map (fun ei =>
        if ei.qry_uid = e0.qry_uid ∨ ¬ ei.to_wire then ei
        else if rrsets_match ei.rr e0.rr then { ei with to_wire := false }
        else ei))
  else (kr_error EINVAL, array)

/-- The merge-candidate scan of `kr_ranked_rrarray_add`: walk the array
backwards; stop at a yielded entry or at a foreign query UID; return the
index of the first entry forming the same RR set. -/
def findMergeIdx (array : List RankedEntry) (qry_uid : Nat) (rr : RRset) :
    Option Nat :=
  go array.length
where
  go : Nat → Option Nat
    | 0 => none
    | i + 1 =>
      let stashed := array.getD i defaultEntry
      if stashed.yielded then none
      else if stashed.qry_uid ≠ qry_uid then none
      else if rrsets_match stashed.rr rr then some i
      else go i

/-- `kr_ranked_rrarray_add`.  `mergeFn` stands for the external
`knot_rdataset_merge`; memory allocation cannot fail in the value model, so
the `ENOMEM` branches are unreachable.  Returns the `kr_error` code and the
updated array. -/
def kr_ranked_rrarray_add (mergeFn : List Rdata → List Rdata → List Rdata)
    (array : List RankedEntry) (rr : RRset) (rank : Nat) (to_wire : Bool)
    (qry_uid : Nat) : Int × List RankedEntry :=
  match findMergeIdx array qry_uid rr with
  | some i =>
    let stashed := array.getD i defaultEntry
    if stashed.rank = rank ∧ ¬ stashed.cached then
      let merged := { stashed with
        to_wire := stashed.to_wire || to_wire,
        rr := { stashed.rr with rrs := mergeFn stashed.rr.rrs rr.rrs } }
      (kr_ok, array.set i merged)
    else (kr_error EEXIST, array)
  | none =>
    let entry : RankedEntry :=
      { qry_uid := qry_uid, rr := rr, rank := rank, revalidation_cnt := 0,
        cached := false, yielded := false, to_wire := to_wire }
    let array2 := array ++ [entry]
    to_wire_ensure_unique array2 (array2.length - 1)

/-- The C guard `extraCheck != NULL && !extraCheck(entry)`. -/
def extraCheckFails : Option (RankedEntry → Bool) → RankedEntry → Bool
  | some f, e => ¬ f e
  | none, _ => false

/-- Loop of `kr_ranked_rrarray_set_wire` over the indices of the array
(the array length is invariant under the loop body). -/
def set_wire_go (to_wire : Bool) (qry_uid : Nat) (check_dups : Bool)
    (extraCheck : Option (RankedEntry → Bool)) :
    List Nat → List RankedEntry → Int × List RankedEntry
  | [], array => (kr_ok, array)
  | i :: rest, array =>
    let entry := array.getD i defaultEntry
    if entry.qry_uid ≠ qry_uid then
      set_wire_go to_wire qry_uid check_dups extraCheck rest array
    else if extraCheckFails extraCheck entry then
      set_wire_go to_wire qry_uid check_dups extraCheck rest array
    else
      let array2 := array.set i { entry with to_wire := to_wire }
      if check_dups then
        let r := to_wire_ensure_unique array2 i
        if r.1 ≠ 0 then (r.1, r.2)
        else set_wire_go to_wire qry_uid check_dups extraCheck rest r.2
      else set_wire_go to_wire qry_uid check_dups extraCheck rest array2

/-- `kr_ranked_rrarray_set_wire`. -/
def kr_ranked_rrarray_set_wire (array : List RankedEntry) (to_wire : Bool)
    (qry_uid : Nat) (check_dups : Bool)
    (extraCheck : Option (RankedEntry → Bool)) : Int × List RankedEntry :=
  set_wire_go to_wire qry_uid check_dups extraCheck
    (List.range array.length) array

/-! ## `kr_rrkey` and `u16tostr` (`lib/utils.c`) -/

/-- One step of the `u16tostr` digit loop on the 32-bit accumulator:
emit `'0' + (tmp >> 28)`, continue with `(tmp & 0x0fffffff) * 10`. -/
def u16tostr_go : Nat → Nat → List Nat
  | 0, _ => []
  | i + 1, tmp => (48 + tmp / 2 ^ 28) :: u16tostr_go i ((tmp % 2 ^ 28) * 10)

/-- `u16tostr`: five ASCII decimal digits of a 16-bit number (the magic
multiplier `(1 << 28) / 10000 + 1`).  All intermediate values fit in 32 bits
for `num < 2^16`, so the `uint32_t` wrap-around is omitted. -/
def u16tostr (num : Nat) : List Nat :=
  u16tostr_go 5 (num * ((2 ^ 28) / 10000 + 1) - num / 4)

/-- `knot_dname_to_wire` followed by `knot_dname_to_lower` on the buffer:
the wire form of the lowercased name (label lengths are ≤ 63 < `'A'`, so
lowercasing the buffer only touches label bytes). -/
def dnameWireLower (d : Dname) : List Nat :=
  dnameWire (dnameLower d)

/-- `kr_rrkey(key, class, owner, type, additional)`: returns the `int`
result (the key length) and the bytes written to the buffer.  The cursor is
advanced by `wire length - 1` after the owner, so the owner's terminal zero
byte is overwritten by the type digits; a final NUL is stored one byte past
the returned length. -/
def kr_rrkey (rclass : Nat) (owner : Dname) (rtype : Nat)
    (additional : Nat) : Int × List Nat :=
  let wire := dnameWire owner
  let part_cls := u16tostr rclass
  let part_own := (dnameWireLower owner).take (wire.length - 1)
  let part_typ := u16tostr rtype
  let part_add := u16tostr additional
  (((5 + (wire.length - 1) + 5 + 5 : Nat) : Int),
   part_cls ++ part_own ++ part_typ ++ part_add ++ [0])

/-- The key layout claimed by the specification, for comparison:
`{class(2B)}{owner-wire-lowercase}{type(2B)}{discriminator(2B)}` with the
16-bit fields as 2-byte big-endian values and the total length returned. -/
def u16be (n : Nat) : List Nat := [n / 256 % 256, n % 256]

def rrkey_spec_claim (rclass : Nat) (owner : Dname) (rtype : Nat)
    (additional : Nat) : Int × List Nat :=
  let bytes := u16be rclass ++ dnameWireLower owner ++ u16be rtype ++ u16be additional
  ((bytes.length : Int), bytes)

/-- The five ASCII decimal digits of a 16-bit value, leading zeros kept. -/
def decimal5 (n : Nat) : List Nat :=
  [48 + n / 10000 % 10, 48 + n / 1000 % 10, 48 + n / 100 % 10,
   48 + n / 10 % 10, 48 + n % 10]

/-! ## `kr_inaddr_set_port` (`lib/utils.c`)

The sockaddr is modelled as the `sa_family` value plus the buffer bytes from
offset 2 of the struct onwards (`sa_family_t` occupies bytes 0–1 on the
targeted ABI).  In both `struct sockaddr_in` and `struct sockaddr_in6` the
port field (`sin_port` resp. `sin6_port`) occupies struct bytes 2–3, i.e.
bytes 0–1 of `rest`. -/

def AF_INET : Nat := 2
def AF_INET6 : Nat := 10

structure SockaddrBuf where
  family : Nat
  /-- Struct bytes from offset 2 onwards. -/
  rest : List Nat
  deriving DecidableEq, Repr

/-- Big-endian (network order, `htons`) 16-bit store at a byte offset. -/
def writeU16be (bytes : List Nat) (off : Nat) (v : Nat) : List Nat :=
  (bytes.set off (v / 256 % 256)).set (off + 1) (v % 256)

/-- Offset of `sin_port` within `rest` (struct offset 2). -/
def sin_port_off : Nat := 0
/-- Offset of `sin6_port` within `rest` (struct offset 2). -/
def sin6_port_off : Nat := 0

/-- `kr_inaddr_set_port`: the `switch` has no `break`s, so the `AF_INET` arm
falls through into the `AF_INET6` arm (both port stores are performed) and
the `AF_INET6` arm falls through into `default`. -/
def kr_inaddr_set_port (addr : SockaddrBuf) (port : Nat) : SockaddrBuf :=
  if addr.family = AF_INET then
    { addr with
      rest := writeU16be (writeU16be addr.rest sin_port_off port) sin6_port_off port }
  else if addr.family = AF_INET6 then
    { addr with rest := writeU16be addr.rest sin6_port_off port }
  else addr

/-! ## `kr_context_deinit` (`lib/context.c`)

The delegation map and cache teardown functions are outside the embedded
sources; they are abstract state transformers of the environment. -/

structure ContextEnv where
  delegmap_deinit : Nat → Nat
  cache_close : Nat → Nat

structure KrContext where
  dp_map : Nat
  cache : Nat
  deriving DecidableEq, Repr

/-- `kr_context_deinit`: tears the members down, then `return -1;`. -/
def kr_context_deinit (env : ContextEnv) (ctx : KrContext) : KrContext × Int :=
  ({ dp_map := env.delegmap_deinit ctx.dp_map,
     cache := env.cache_close ctx.cache }, -1)

/-! ## Flag-word bit numbering

DNS RFCs number the bits of a 16-bit field most-significant-first:
bit 0 is the `0x8000` bit and bit 15 the `0x0001` bit (RFC 1035 §4.1.1,
RFC 4034 §2.1.1). -/

def flagsBit (w : Nat) (i : Nat) : Bool := w.testBit (15 - i)

/-! ## Concrete test vectors used by counterexamples and witnesses -/

/-- An environment in which every external check succeeds and the key tag of
every key handle is 7. -/
def tstEnv : DnssecEnv :=
  { key_new := fun _ _ => (0, 1)
    keytag := fun _ => 7
    check_signature := fun _ _ _ _ _ => 0
    nsec_wildcard_check := fun _ _ _ => 0
    nsec3_wildcard_check := fun _ _ _ _ => 0
    authenticate_referral := fun _ _ => 0 }

def tstSigFields : RRSIGRData :=
  { type_covered := 1, algorithm := 5, labels := 1, orig_ttl := 0,
    sig_expiration := 10, sig_inception := 0, key_tag := 7,
    signer_name := [[97]], signature := [] }

def tstCovered : RRset :=
  { owner := [[97]], rclass := 1, rtype := 1, rrs := [defaultRdata] }

def tstRRSIGSet : RRset :=
  { owner := [[97]], rclass := 1, rtype := 46,
    rrs := [{ raw := [], sig := tstSigFields }] }

def tstKeys : RRset :=
  { owner := [[97]], rclass := 1, rtype := 48,
    rrs := [{ raw := [1, 0, 3, 5], sig := defaultSig }] }

def tstPkt : Packet :=
  { answer := [tstRRSIGSet], authority := [], additional := [] }

/-- Wildcard-owner fixtures: owner `*.a` has 2 labels, is a wildcard, and the
RRSIG labels field is 0. -/
def wcCovered : RRset :=
  { owner := [[42], [97]], rclass := 1, rtype := 1, rrs := [defaultRdata] }

def wcSigRd : Rdata := { raw := [], sig := { tstSigFields with labels := 0 } }

def wcRRSIGSet : RRset :=
  { owner := [[42], [97]], rclass := 1, rtype := 46, rrs := [wcSigRd] }

def wcPkt : Packet :=
  { answer := [wcRRSIGSet], authority := [], additional := [] }

/-- An environment whose signature check accepts exactly trim value `t` and
whose NSEC3 wildcard check accepts exactly closest-encloser parameter
`t - 1`: it observes which trim value the validator passes to the external
checks. -/
def envExpectTrim (t : Int) : DnssecEnv :=
  { tstEnv with
    check_signature := fun _ _ _ _ trim => if trim = t then 0 else 1
    nsec3_wildcard_check := fun _ _ _ d => if d = t - 1 then 0 else 1 }

/-- A concrete rdata-set merge function for the ranked-array test vectors. -/
def catMerge : List Rdata → List Rdata → List Rdata := fun a b => a ++ b

def rrEntA : RRset :=
  { owner := [[97]], rclass := 1, rtype := 1, rrs := [defaultRdata] }

def rrEntB : RRset :=
  { owner := [[98]], rclass := 1, rtype := 1, rrs := [defaultRdata] }

/-- Ranked array states: `A` added for query 1, then `B` for query 2, then
`A` again for query 1 (all `to_wire`). -/
def cexArr1 : List RankedEntry :=
  (kr_ranked_rrarray_add catMerge [] rrEntA 1 true 1).2

def cexArr2 : List RankedEntry :=
  (kr_ranked_rrarray_add catMerge cexArr1 rrEntB 1 true 2).2

def cexArr3 : List RankedEntry :=
  (kr_ranked_rrarray_add catMerge cexArr2 rrEntA 1 true 1).2

/-- Cross-query to-wire uniqueness: no two entries of different query UIDs
both marked `to_wire` form the same RR set. -/
def crossWireUnique (array : List RankedEntry) : Prop :=
  ∀ i, i < array.length → ∀ j, j < array.length →
    (array.getD i defaultEntry).qry_uid ≠ (array.getD j defaultEntry).qry_uid →
    (array.getD i defaultEntry).to_wire = true →
    (array.getD j defaultEntry).to_wire = true →
    rrsets_match ((array.getD i defaultEntry).rr)
      ((array.getD j defaultEntry).rr) = false

instance crossWireUnique_decidable (array : List RankedEntry) :
    Decidable (crossWireUnique array) := by
  unfold crossWireUnique
  infer_instance

/-- The fresh entry the append path of `kr_ranked_rrarray_add` builds. -/
def newRankedEntry (rr : RRset) (rank : Nat) (tw : Bool) (quid : Nat) :
    RankedEntry :=
  { qry_uid := quid, rr := rr, rank := rank, revalidation_cnt := 0,
    cached := false, yielded := false, to_wire := tw }

/-!
# Theorems
-/

/-! General helper lemmas about list indexing, used throughout. -/

theorem getD_set_ne {α : Type} (l : List α) (i j : Nat) (a d : α) (h : i ≠ j) :
    (l.set i a).getD j d = l.getD j d := by
  induction l generalizing i j with
  | nil => simp
  | cons x xs ih =>
    cases i with
    | zero =>
      cases j with
      | zero => exact absurd rfl h
      | succ j' => simp
    | succ i' =>
      cases j with
      | zero => simp
      | succ j' => simpa using ih i' j' (by omega)

theorem getD_set_self {α : Type} (l : List α) (i : Nat) (a d : α)
    (h : i < l.length) : (l.set i a).getD i d = a := by
  induction l generalizing i with
  | nil => simp at h
  | cons x xs ih =>
    cases i with
    | zero => simp
    | succ i' => simpa using ih i' (by simpa using h)

theorem getD_map_lt {α β : Type} (f : α → β) (l : List α) (i : Nat) (d : α)
    (d' : β) (h : i < l.length) : (l.map f).getD i d' = f (l.getD i d) := by
  induction l generalizing i with
  | nil => simp at h
  | cons x xs ih =>
    cases i with
    | zero => simp
    | succ i' => simpa using ih i' (by simpa using h)

/-- C10: `kr_context_deinit` returns -1 on every call, for every behaviour of
the delegation-map and cache teardown, so a caller that treats a nonzero
return as failure always observes failure. -/
theorem claim_C10 (env : ContextEnv) (ctx : KrContext) :
    (kr_context_deinit env ctx).2 = -1 ∧ (kr_context_deinit env ctx).2 ≠ 0 :=
  ⟨rfl, show (-1 : Int) ≠ 0 by decide⟩

/-- C9 counterexample: on the DNSKEY rdata `[0x00, 0x01, 3, 5]` the flags word
is `0x0001`; `kr_dnssec_key_ksk` returns true although bit 0 of the flags
word (the `0x8000` bit in RFC numbering) is clear, refuting the claim that
`kr_dnssec_key_ksk` tests bit 0. -/
theorem claim_C9_cex :
    kr_dnssec_key_ksk [0, 1, 3, 5] = true ∧
    flagsBit (wire_read_u16 [0, 1, 3, 5]) 0 = false := by decide

/-- C9 amended: with RFC (most-significant-first) bit numbering,
`kr_dnssec_key_zsk` tests bit 7 (`0x0100`, the Zone Key flag),
`kr_dnssec_key_ksk` tests bit 15 (`0x0001`, the SEP flag — not bit 0),
and `kr_dnssec_key_revoked` tests bit 8 (`0x0080`, the Revoke flag). -/
theorem claim_C9_amended (rdata : List Nat) :
    kr_dnssec_key_zsk rdata = flagsBit (wire_read_u16 rdata) 7 ∧
    kr_dnssec_key_ksk rdata = flagsBit (wire_read_u16 rdata) 15 ∧
    kr_dnssec_key_revoked rdata = flagsBit (wire_read_u16 rdata) 8 := by
  have key : ∀ (w k : Nat), decide (w &&& 2 ^ k ≠ 0) = w.testBit k := by
    intro w k
    rw [Nat.and_two_pow]
    cases h : w.testBit k <;> simp [h, (Nat.two_pow_pos k).ne']
  refine ⟨?_, ?_, ?_⟩
  · show decide (wire_read_u16 rdata &&& 0x0100 ≠ 0) = flagsBit (wire_read_u16 rdata) 7
    rw [show (0x0100 : Nat) = 2 ^ 8 by norm_num, key]
    rfl
  · show decide (wire_read_u16 rdata &&& 0x0001 ≠ 0) = flagsBit (wire_read_u16 rdata) 15
    rw [show (0x0001 : Nat) = 2 ^ 0 by norm_num, key]
    rfl
  · show decide (wire_read_u16 rdata &&& 0x0080 ≠ 0) = flagsBit (wire_read_u16 rdata) 8
    rw [show (0x0080 : Nat) = 2 ^ 7 by norm_num, key]
    rfl

theorem writeU16be_length (l : List Nat) (off v : Nat) :
    (writeU16be l off v).length = l.length := by
  simp [writeU16be]

/-- `writeU16be` leaves every byte outside `off, off+1` unchanged. -/
theorem writeU16be_getD_ne (l : List Nat) (off v i : Nat)
    (h1 : i ≠ off) (h2 : i ≠ off + 1) :
    (writeU16be l off v).getD i 0 = l.getD i 0 := by
  unfold writeU16be
  rw [getD_set_ne _ _ _ _ _ (by omega), getD_set_ne _ _ _ _ _ (by omega)]

/-- `writeU16be` stores the big-endian bytes of the value. -/
theorem writeU16be_getD_port (l : List Nat) (v : Nat) (hl : 2 ≤ l.length) :
    (writeU16be l 0 v).getD 0 0 = v / 256 % 256 ∧
    (writeU16be l 0 v).getD 1 0 = v % 256 := by
  unfold writeU16be
  constructor
  · rw [getD_set_ne _ _ _ _ _ (by omega), getD_set_self _ _ _ _ (by omega)]
  · rw [getD_set_self _ _ _ _ (by rw [List.length_set]; omega)]

/-- C8: for an `AF_INET` or `AF_INET6` sockaddr, `kr_inaddr_set_port` changes
only the two bytes of the port field at struct offset 2 (which is where both
`sin_port` and `sin6_port` live, so the missing `break` fall-through writes
the very same bytes), storing the port in network byte order; the family and
every other byte are unchanged. -/
theorem claim_C8 (addr : SockaddrBuf) (port : Nat)
    (h : addr.family = AF_INET ∨ addr.family = AF_INET6) :
    (kr_inaddr_set_port addr port).family = addr.family ∧
    (kr_inaddr_set_port addr port).rest.length = addr.rest.length ∧
    (∀ i, i ≠ 0 → i ≠ 1 →
      (kr_inaddr_set_port addr port).rest.getD i 0 = addr.rest.getD i 0) ∧
    (2 ≤ addr.rest.length →
      (kr_inaddr_set_port addr port).rest.getD 0 0 = port / 256 % 256 ∧
      (kr_inaddr_set_port addr port).rest.getD 1 0 = port % 256) := by
  rcases h with h | h
  · have e : kr_inaddr_set_port addr port =
        { addr with
          rest := writeU16be (writeU16be addr.rest sin_port_off port) sin6_port_off port } := by
      unfold kr_inaddr_set_port
      rw [h, if_pos rfl]
    rw [e]
    refine ⟨rfl, ?_, ?_, ?_⟩
    · show (writeU16be (writeU16be addr.rest 0 port) 0 port).length = _
      rw [writeU16be_length, writeU16be_length]
    · intro i h0 h1
      show (writeU16be (writeU16be addr.rest 0 port) 0 port).getD i 0 = _
      rw [writeU16be_getD_ne _ _ _ _ h0 h1, writeU16be_getD_ne _ _ _ _ h0 h1]
    · intro hl
      exact writeU16be_getD_port (writeU16be addr.rest 0 port) port
        (by rw [writeU16be_length]; exact hl)
  · have e : kr_inaddr_set_port addr port =
        { addr with
          rest := writeU16be addr.rest sin6_port_off port } := by
      unfold kr_inaddr_set_port
      rw [h, if_neg (by decide), if_pos rfl]
    rw [e]
    refine ⟨rfl, ?_, ?_, ?_⟩
    · show (writeU16be addr.rest 0 port).length = _
      rw [writeU16be_length]
    · intro i h0 h1
      show (writeU16be addr.rest 0 port).getD i 0 = _
      rw [writeU16be_getD_ne _ _ _ _ h0 h1]
    · intro hl
      exact writeU16be_getD_port addr.rest port hl

/-- C8 witness: concrete `AF_INET` sockaddr. -/
theorem claim_C8_witness :
    (kr_inaddr_set_port ⟨2, [9, 9, 9, 9]⟩ 4660).family = 2 ∧
    (kr_inaddr_set_port ⟨2, [9, 9, 9, 9]⟩ 4660).rest.getD 2 0 = 9 ∧
    (kr_inaddr_set_port ⟨2, [9, 9, 9, 9]⟩ 4660).rest.getD 0 0 = 18 := by
  have h := claim_C8 ⟨2, [9, 9, 9, 9]⟩ 4660 (Or.inl rfl)
  exact ⟨h.1, h.2.2.1 2 (by decide) (by decide), (h.2.2.2 (by decide)).1⟩

/-! ### `u16tostr` produces the decimal digits

The fixed-point digit loop is bracketed: if `m * B ≤ t * p < (m + 1) * B`
then `t / B` is the leading remaining digit and the next accumulator
satisfies the bracket for the remaining value `m % p`. -/

theorem bracket_digit {B p t m : Nat} (hp : 0 < p)
    (h1 : m * B ≤ t * p) (h2 : t * p < (m + 1) * B) :
    t / B = m / p := by
  have hlow : (m / p) * B ≤ t := by
    have h3 : ((m / p) * B) * p ≤ t * p :=
      calc ((m / p) * B) * p = ((m / p) * p) * B := by ring
        _ ≤ m * B := Nat.mul_le_mul_right _ (Nat.div_mul_le_self m p)
        _ ≤ t * p := h1
    exact Nat.le_of_mul_le_mul_right h3 hp
  have hhigh : t < (m / p + 1) * B := by
    have h4 : m + 1 ≤ (m / p + 1) * p := by
      have hm := Nat.div_add_mod m p
      have hr : m % p < p := Nat.mod_lt _ hp
      calc m + 1 = p * (m / p) + m % p + 1 := by rw [hm]
        _ ≤ p * (m / p) + p := by omega
        _ = (m / p + 1) * p := by ring
    have h5 : t * p < ((m / p + 1) * B) * p :=
      calc t * p < (m + 1) * B := h2
        _ ≤ ((m / p + 1) * p) * B := Nat.mul_le_mul_right _ h4
        _ = ((m / p + 1) * B) * p := by ring
    by_contra hc
    push_neg at hc
    exact absurd h5 (Nat.not_lt.mpr (Nat.mul_le_mul_right p hc))
  exact Nat.div_eq_of_lt_le hlow hhigh

theorem bracket_next {B p q t m : Nat} (hq : 0 < q) (hpq : p = 10 * q)
    (h1 : m * B ≤ t * p) (h2 : t * p < (m + 1) * B) :
    (m % p) * B ≤ (t % B * 10) * q ∧ (t % B * 10) * q < (m % p + 1) * B := by
  have hp : 0 < p := by omega
  have hd := bracket_digit hp h1 h2
  have e1 : m * B = (m / p) * p * B + (m % p) * B := by
    conv_lhs => rw [← Nat.div_add_mod m p]
    ring
  have e2 : t * p = (t / B) * p * B + (t % B) * p := by
    conv_lhs => rw [← Nat.div_add_mod t B]
    ring
  have e3 : (m + 1) * B = (m / p) * p * B + (m % p + 1) * B := by
    conv_lhs => rw [← Nat.div_add_mod m p]
    ring
  rw [e1, e2, hd] at h1
  rw [e2, e3, hd] at h2
  have h1' : (m % p) * B ≤ (t % B) * p := Nat.le_of_add_le_add_left h1
  have h2' : (t % B) * p < (m % p + 1) * B := Nat.lt_of_add_lt_add_left h2
  constructor
  · calc (m % p) * B ≤ (t % B) * p := h1'
      _ = (t % B * 10) * q := by rw [hpq]; ring
  · calc (t % B * 10) * q = (t % B) * p := by rw [hpq]; ring
      _ < (m % p + 1) * B := h2'

set_option maxHeartbeats 1000000 in
/-- The `u16tostr` bit-trick computes exactly the five decimal digits. -/
theorem u16tostr_digits (n : Nat) (h : n < 65536) :
    u16tostr n = decimal5 n := by
  have c0 : n / 10000 % 10 = n / 10000 := by omega
  have c1 : n % 10000 / 1000 = n / 1000 % 10 := by omega
  have c2 : n % 10000 % 1000 / 100 = n / 100 % 10 := by omega
  have c3 : n % 10000 % 1000 % 100 / 10 = n / 10 % 10 := by omega
  have c4 : n % 10000 % 1000 % 100 % 10 / 1 = n % 10 := by omega
  have hb0 : n * 268435456 ≤ (n * 26844 - n / 4) * 10000 ∧
      (n * 26844 - n / 4) * 10000 < (n + 1) * 268435456 := by omega
  have hd0 := bracket_digit (by norm_num) hb0.1 hb0.2
  have hb1 := bracket_next (q := 1000) (by norm_num) (by norm_num) hb0.1 hb0.2
  have hd1 := bracket_digit (by norm_num) hb1.1 hb1.2
  have hb2 := bracket_next (q := 100) (by norm_num) (by norm_num) hb1.1 hb1.2
  have hd2 := bracket_digit (by norm_num) hb2.1 hb2.2
  have hb3 := bracket_next (q := 10) (by norm_num) (by norm_num) hb2.1 hb2.2
  have hd3 := bracket_digit (by norm_num) hb3.1 hb3.2
  have hb4 := bracket_next (q := 1) (by norm_num) (by norm_num) hb3.1 hb3.2
  have hd4 := bracket_digit (by norm_num) hb4.1 hb4.2
  have eM : (2 : Nat) ^ 28 / 10000 + 1 = 26844 := by norm_num
  have eB : (2 : Nat) ^ 28 = 268435456 := by norm_num
  simp only [u16tostr, u16tostr_go, decimal5, eM, eB, List.cons.injEq, and_true]
  refine ⟨?_, ?_, ?_, ?_, ?_⟩
  · rw [hd0, c0]
  · rw [hd1, c1]
  · rw [hd2, c2]
  · rw [hd3, c3]
  · rw [hd4, c4]

theorem dnameWireLower_length (d : Dname) :
    (dnameWireLower d).length = (dnameWire d).length := by
  unfold dnameWireLower dnameLower dnameWire
  induction d with
  | nil => simp
  | cons l ls ih => simp_all

theorem dnameWire_length_pos (d : Dname) : 0 < (dnameWire d).length := by
  unfold dnameWire
  simp

/-- C7 counterexample: for class 1, owner `a.`, type 1, discriminator 0 the
key produced by `kr_rrkey` is not the 2-byte-field layout the claim
describes (the code writes five ASCII decimal digits per 16-bit field and
drops the owner wire form's terminal zero byte). -/
theorem claim_C7_cex :
    kr_rrkey 1 [[97]] 1 0 ≠ rrkey_spec_claim 1 [[97]] 1 0 ∧
    kr_rrkey 1 [[97]] 1 0 =
      (17, [48, 48, 48, 48, 49, 1, 97, 48, 48, 48, 48, 49,
            48, 48, 48, 48, 48, 0]) := by
  constructor
  · decide
  · decide

/-- C7 amended: the key is the concatenation of the class as five ASCII
decimal digits, the lowercased owner wire form without its terminal zero
byte, the type and the discriminator as five ASCII decimal digits each,
followed by one NUL byte; the returned value is the key length without
that final NUL. -/
theorem claim_C7_amended (rclass : Nat) (owner : Dname) (rtype additional : Nat)
    (hc : rclass < 65536) (ht : rtype < 65536) (ha : additional < 65536) :
    kr_rrkey rclass owner rtype additional =
      ((((dnameWireLower owner).length + 14 : Nat) : Int),
        decimal5 rclass ++ (dnameWireLower owner).dropLast
          ++ decimal5 rtype ++ decimal5 additional ++ [0]) ∧
    (kr_rrkey rclass owner rtype additional).1 + 1 =
      ((kr_rrkey rclass owner rtype additional).2.length : Int) := by
  have hw := dnameWire_length_pos owner
  have hl := dnameWireLower_length owner
  have htake : (dnameWireLower owner).take ((dnameWire owner).length - 1) =
      (dnameWireLower owner).dropLast := by
    rw [List.dropLast_eq_take, hl]
  have hmain : kr_rrkey rclass owner rtype additional =
      ((((dnameWireLower owner).length + 14 : Nat) : Int),
        decimal5 rclass ++ (dnameWireLower owner).dropLast
          ++ decimal5 rtype ++ decimal5 additional ++ [0]) := by
    unfold kr_rrkey
    dsimp only
    rw [u16tostr_digits rclass hc, u16tostr_digits rtype ht,
      u16tostr_digits additional ha, htake]
    refine Prod.ext ?_ rfl
    show ((5 + ((dnameWire owner).length - 1) + 5 + 5 : Nat) : Int) = _
    congr 1
    omega
  refine ⟨hmain, ?_⟩
  rw [hmain]
  have hdl : ((dnameWireLower owner).dropLast).length =
      (dnameWireLower owner).length - 1 := List.length_dropLast _
  simp only [List.length_append, hdl, decimal5, List.length_cons,
    List.length_nil]
  push_cast
  omega

/-- C7 witness: the amended layout at concrete inputs. -/
theorem claim_C7_witness :
    kr_rrkey 1 [[97]] 1 0 =
      (17, decimal5 1 ++ [1, 97] ++ decimal5 1 ++ decimal5 0 ++ [0]) := by
  have h := claim_C7_amended 1 [[97]] 1 0 (by decide) (by decide) (by decide)
  exact h.1.trans (by decide)

/-- C3 counterexample: for the wildcard owner `*.a` (2 labels, so
`n = 2 - 1 = 1`) and an RRSIG with labels field 0, the wildcard-expansion
flag is set, but the trim value the validator computes and passes to the
signature and NSEC3 checks is `labels(owner) - RRSIG.labels = 2`, not
`n - RRSIG.labels = 1`: an environment accepting only trim 2 validates the
RR set, an environment accepting only trim 1 gets `ENOENT`. -/
theorem claim_C3_cex :
    (dname_labels wcCovered.owner = 2 ∧ dname_is_wildcard wcCovered.owner = true ∧
      (wcRRSIGSet.rrs.getD 0 defaultRdata).sig.labels = 0) ∧
    (validate_rrsig_rr 0 wcCovered wcRRSIGSet 0 tstKeys 0 1 tstEnv [[97]] 5).1 = 0 ∧
    (validate_rrsig_rr 0 wcCovered wcRRSIGSet 0 tstKeys 0 1 tstEnv [[97]] 5).2
      &&& FLG_WILDCARD_EXPANSION ≠ 0 ∧
    wildcard_radix_len_diff wcCovered.owner wcRRSIGSet 0 = 2 ∧
    kr_rrset_validate (envExpectTrim 2) wcPkt .answer wcCovered tstKeys [[97]] 5 true = 0 ∧
    kr_rrset_validate (envExpectTrim 1) wcPkt .answer wcCovered tstKeys [[97]] 5 true
      = kr_error ENOENT := by
  decide

/-- C3 amended: with `n = labels(owner) - (1 if wildcard else 0)`, an RRSIG
labels field greater than `n` is rejected; when the preceding checks pass, a
labels field smaller than `n` (and only that) sets WILDCARD_EXPANSION; and
the trim value computed for the subsequent signature and NSEC3 checks is
`labels(owner) - RRSIG.labels`, i.e. `n - RRSIG.labels` only for
non-wildcard owners and `n + 1 - RRSIG.labels` for wildcard owners. -/
theorem claim_C3_amended (flags : Nat) (covered rrsigs : RRset) (sig_pos : Nat)
    (keys : RRset) (key_pos : Nat) (key : DnssecKey) (env : DnssecEnv)
    (zone_name : Dname) (timestamp : Nat) (rd : Rdata)
    (hrd : rrsigs.rrs.get? sig_pos = some rd) :
    ((rd.sig.labels : Int) >
        (dname_labels covered.owner : Int) -
          (if dname_is_wildcard covered.owner then 1 else 0) →
      (validate_rrsig_rr flags covered rrsigs sig_pos keys key_pos key env
        zone_name timestamp).1 ≠ 0) ∧
    (covered.rclass = rrsigs.rclass → dnameEqb covered.owner rrsigs.owner = true →
      dnameEqb rd.sig.signer_name zone_name = true →
      rd.sig.type_covered = covered.rtype →
      ¬ ((rd.sig.labels : Int) >
          (dname_labels covered.owner : Int) -
            (if dname_is_wildcard covered.owner then 1 else 0)) →
      (validate_rrsig_rr flags covered rrsigs sig_pos keys key_pos key env
          zone_name timestamp).2 =
        (if (rd.sig.labels : Int) <
            (dname_labels covered.owner : Int) -
              (if dname_is_wildcard covered.owner then 1 else 0)
          then flags ||| FLG_WILDCARD_EXPANSION else flags)) ∧
    wildcard_radix_len_diff covered.owner rrsigs sig_pos =
      ((dname_labels covered.owner : Int) -
          (if dname_is_wildcard covered.owner then 1 else 0)) +
        (if dname_is_wildcard covered.owner then 1 else 0) -
        (rd.sig.labels : Int) := by
  have hne : kr_error EINVAL ≠ 0 := by decide
  have hgetD : rrsigs.rrs.getD sig_pos defaultRdata = rd := by
    rw [List.getD_eq_getElem?_getD, ← List.get?_eq_getElem?, hrd]
    rfl
  refine ⟨?_, ?_, ?_⟩
  · intro hgt
    unfold validate_rrsig_rr
    rw [hrd]
    dsimp only
    split_ifs
    all_goals exact fun h => hne h
  · intro hcl how hsg htc hngt
    unfold validate_rrsig_rr
    rw [if_neg (by simp [hcl, how]), hrd]
    dsimp only
    rw [if_neg (by simp [hsg]), if_neg (by simp [htc]), if_neg hngt]
    split_ifs <;> rfl
  · unfold wildcard_radix_len_diff
    rw [hgetD]
    omega

/-- C3 witness: at the wildcard fixtures, the amended theorem yields the set
flag and the trim value 2. -/
theorem claim_C3_witness :
    (validate_rrsig_rr 0 wcCovered wcRRSIGSet 0 tstKeys 0 1 tstEnv [[97]] 5).2 = 1 ∧
    wildcard_radix_len_diff wcCovered.owner wcRRSIGSet 0 = 2 := by
  have h := claim_C3_amended 0 wcCovered wcRRSIGSet 0 tstKeys 0 1 tstEnv
    [[97]] 5 wcSigRd (by decide)
  constructor
  · have h2 := h.2.1 (by decide) (by decide) (by decide) (by decide) (by decide)
    exact h2.trans (by decide)
  · exact h.2.2.trans (by decide)

/-- The `kr_dnskeys_trusted` loop succeeds exactly when some listed key
position is useable, and otherwise yields `ENOENT`. -/
theorem kr_dnskeys_trusted_go_spec (env : DnssecEnv) (pkt : Packet)
    (sid : SectionId) (keys ta : RRset) (zone : Dname) (ts : Nat) (n3 : Bool)
    (l : List Nat) :
    (kr_dnskeys_trusted_go env pkt sid keys ta zone ts n3 l = 0 ↔
      ∃ i ∈ l, goodTrustedKey env pkt sid keys ta zone ts n3 i) ∧
    (kr_dnskeys_trusted_go env pkt sid keys ta zone ts n3 l = 0 ∨
      kr_dnskeys_trusted_go env pkt sid keys ta zone ts n3 l = kr_error ENOENT) := by
  induction l with
  | nil =>
    refine ⟨?_, Or.inr rfl⟩
    constructor
    · intro h
      rw [show kr_dnskeys_trusted_go env pkt sid keys ta zone ts n3 [] =
        kr_error ENOENT from rfl] at h
      exact absurd h (by decide)
    · rintro ⟨i, hi, -⟩
      exact absurd hi (List.not_mem_nil i)
  | cons i rest ih =>
    have hP : ∀ (h : goodTrustedKey env pkt sid keys ta zone ts n3 i)
        (hno : kr_dnskeys_trusted_go env pkt sid keys ta zone ts n3 (i :: rest)
          ≠ kr_ok), False := by
      intro h hno
      obtain ⟨hz, hr, hk, ha, hv⟩ := h
      apply hno
      unfold kr_dnskeys_trusted_go
      dsimp only
      rw [if_neg (by simp only [hz, hr]; decide),
        if_neg (by simp only [hk]; decide),
        if_neg (by simp only [ha]; decide),
        if_neg (by simp only [hv]; decide)]
    by_cases hgood : goodTrustedKey env pkt sid keys ta zone ts n3 i
    · have e : kr_dnskeys_trusted_go env pkt sid keys ta zone ts n3 (i :: rest)
          = kr_ok := by
        by_contra hno
        exact hP hgood hno
      rw [e]
      exact ⟨⟨fun _ => ⟨i, List.mem_cons_self i rest, hgood⟩, fun _ => rfl⟩,
        Or.inl rfl⟩
    · have e : kr_dnskeys_trusted_go env pkt sid keys ta zone ts n3 (i :: rest)
          = kr_dnskeys_trusted_go env pkt sid keys ta zone ts n3 rest := by
        conv_lhs => rw [kr_dnskeys_trusted_go]
        dsimp only
        split_ifs with h1 h2 h3 h4
        · rfl
        · rfl
        · rfl
        · rfl
        · exact absurd ⟨by simpa using (not_or.mp h1).1,
            by simpa using (not_or.mp h1).2, by omega,
            by simpa using h3, by simpa using h4⟩ hgood
      rw [e]
      refine ⟨?_, ih.2⟩
      rw [ih.1]
      constructor
      · rintro ⟨j, hj, hPj⟩
        exact ⟨j, List.mem_cons_of_mem _ hj, hPj⟩
      · rintro ⟨j, hj, hPj⟩
        rcases List.mem_cons.mp hj with rfl | hj'
        · exact absurd hPj hgood
        · exact ⟨j, hj', hPj⟩

/-- C2: `kr_dnskeys_trusted` returns success iff some key in the DNSKEY set
is a non-revoked ZSK that authenticates against the supplied trust anchor
set and under which the DNSKEY RR set itself validates (self-signed); and
its result is either success or the not-found error `ENOENT`. -/
theorem claim_C2 (env : DnssecEnv) (pkt : Packet) (section_id : SectionId)
    (keys ta : RRset) (zone_name : Dname) (timestamp : Nat) (has_nsec3 : Bool) :
    (kr_dnskeys_trusted env pkt section_id keys ta zone_name timestamp has_nsec3
        = 0 ↔
      ∃ i, i < keys.rrs.length ∧
        goodTrustedKey env pkt section_id keys ta zone_name timestamp has_nsec3 i) ∧
    (kr_dnskeys_trusted env pkt section_id keys ta zone_name timestamp has_nsec3
        = 0 ∨
      kr_dnskeys_trusted env pkt section_id keys ta zone_name timestamp has_nsec3
        = kr_error ENOENT) := by
  have h := kr_dnskeys_trusted_go_spec env pkt section_id keys ta zone_name
    timestamp has_nsec3 (List.range keys.rrs.length)
  refine ⟨?_, h.2⟩
  rw [show kr_dnskeys_trusted env pkt section_id keys ta zone_name timestamp
      has_nsec3 = kr_dnskeys_trusted_go env pkt section_id keys ta zone_name
      timestamp has_nsec3 (List.range keys.rrs.length) from rfl, h.1]
  constructor
  · rintro ⟨i, hi, hPi⟩
    exact ⟨i, List.mem_range.mp hi, hPi⟩
  · rintro ⟨i, hi, hPi⟩
    exact ⟨i, List.mem_range.mpr hi, hPi⟩

/-- A zero result of `validate_rrsig_rr` certifies every RFC 4035 5.3.1
field condition. -/
theorem validate_rrsig_rr_ok (flags : Nat) (covered rrsigs : RRset)
    (sig_pos : Nat) (keys : RRset) (key_pos : Nat) (key : DnssecKey)
    (env : DnssecEnv) (zone : Dname) (ts : Nat)
    (h : (validate_rrsig_rr flags covered rrsigs sig_pos keys key_pos key env
      zone ts).1 = 0) :
    ∃ rd, rrsigs.rrs.get? sig_pos = some rd ∧
      covered.rclass = rrsigs.rclass ∧
      dnameEqb covered.owner rrsigs.owner = true ∧
      dnameEqb rd.sig.signer_name zone = true ∧
      rd.sig.type_covered = covered.rtype ∧
      rd.sig.sig_inception ≤ ts ∧ ts ≤ rd.sig.sig_expiration ∧
      dnameEqb keys.owner rd.sig.signer_name = true ∧
      knot_dnskey_alg keys.rrs key_pos = rd.sig.algorithm ∧
      env.keytag key = rd.sig.key_tag := by
  have hne : kr_error EINVAL ≠ 0 := by decide
  unfold validate_rrsig_rr at h
  by_cases h1 : covered.rclass ≠ rrsigs.rclass ∨ ¬ dnameEqb covered.owner rrsigs.owner = true
  · rw [if_pos h1] at h
    exact absurd h hne
  · rw [if_neg h1] at h
    rcases not_or.mp h1 with ⟨hcl, how⟩
    cases hrd : rrsigs.rrs.get? sig_pos with
    | none =>
      rw [hrd] at h
      exact absurd h hne
    | some rd =>
      rw [hrd] at h
      dsimp only at h
      by_cases h2 : ¬ dnameEqb rd.sig.signer_name zone = true
      · rw [if_pos h2] at h
        exact absurd h hne
      · rw [if_neg h2] at h
        by_cases h3 : rd.sig.type_covered ≠ covered.rtype
        · rw [if_pos h3] at h
          exact absurd h hne
        · rw [if_neg h3] at h
          by_cases h4 : ((rd.sig.labels : Int) >
              (dname_labels covered.owner : Int) -
                (if dname_is_wildcard covered.owner then 1 else 0))
          · rw [if_pos h4] at h
            exact absurd h hne
          · rw [if_neg h4] at h
            by_cases h5 : rd.sig.sig_expiration < ts
            · rw [if_pos h5] at h
              exact absurd h hne
            · rw [if_neg h5] at h
              by_cases h6 : rd.sig.sig_inception > ts
              · rw [if_pos h6] at h
                exact absurd h hne
              · rw [if_neg h6] at h
                by_cases h7 : ¬ dnameEqb keys.owner rd.sig.signer_name = true ∨
                    knot_dnskey_alg keys.rrs key_pos ≠ rd.sig.algorithm ∨
                    env.keytag key ≠ rd.sig.key_tag
                · rw [if_pos h7] at h
                  exact absurd h hne
                · rcases not_or.mp h7 with ⟨hko, h7'⟩
                  rcases not_or.mp h7' with ⟨halg, htag⟩
                  exact ⟨rd, rfl, not_not.mp hcl, not_not.mp how,
                    not_not.mp h2, not_not.mp h3, Nat.not_lt.mp h6,
                    Nat.not_lt.mp h5, not_not.mp hko, not_not.mp halg,
                    not_not.mp htag⟩

/-- If the inner signature loop reaches zero from a nonzero running value,
some listed signature position was accepted. -/
theorem sigLoop_eq_zero (env : DnssecEnv) (pkt : Packet) (covered keys : RRset)
    (key_pos : Nat) (key : DnssecKey) (zone : Dname) (ts : Nat) (n3 : Bool)
    (rrsig : RRset) :
    ∀ (js : List Nat) (ret : Int), ret ≠ 0 →
      sigLoop env pkt covered keys key_pos key zone ts n3 rrsig js ret = 0 →
      ∃ j ∈ js, acceptedSigAt env pkt covered keys key_pos key zone ts n3
        rrsig j := by
  intro js
  induction js with
  | nil =>
    intro ret h0 hs
    simp only [sigLoop] at hs
    exact absurd hs h0
  | cons j rest ih =>
    intro ret h0 hs
    simp only [sigLoop] at hs
    by_cases hA : (validate_rrsig_rr 0 covered rrsig j keys key_pos key env
        zone ts).1 ≠ 0
    · rw [if_pos hA] at hs
      obtain ⟨j', hj', hP⟩ := ih ret h0 hs
      exact ⟨j', List.mem_cons_of_mem _ hj', hP⟩
    · rw [if_neg hA] at hs
      by_cases hW : (validate_rrsig_rr 0 covered rrsig j keys key_pos key env
          zone ts).2 &&& FLG_WILDCARD_EXPANSION ≠ 0
      · simp only [if_pos hW] at hs
        by_cases hT : wildcard_radix_len_diff covered.owner rrsig j < 0
        · rw [if_pos ⟨hW, hT⟩] at hs
          exact absurd hs h0
        · rw [if_neg (fun hh => hT hh.2)] at hs
          by_cases hC : env.check_signature rrsig j key covered
              (wildcard_radix_len_diff covered.owner rrsig j) ≠ 0
          · rw [if_pos hC] at hs
            obtain ⟨j', hj', hP⟩ := ih ret h0 hs
            exact ⟨j', List.mem_cons_of_mem _ hj', hP⟩
          · rw [if_neg hC] at hs
            by_cases hR : (if ¬ n3 then
                  env.nsec_wildcard_check pkt .authority covered.owner
                else env.nsec3_wildcard_check pkt .authority covered.owner
                  (wildcard_radix_len_diff covered.owner rrsig j - 1)) ≠ 0
            · rw [if_pos hR] at hs
              obtain ⟨j', hj', hP⟩ := ih _ hR hs
              exact ⟨j', List.mem_cons_of_mem _ hj', hP⟩
            · refine ⟨j, List.mem_cons_self j rest, not_not.mp hA, ?_, ?_⟩
              · unfold sigTrim
                rw [if_pos hW]
                exact not_not.mp hC
              · intro _
                unfold wcCheckResult
                exact not_not.mp hR
      · simp only [if_neg hW] at hs
        rw [if_neg (fun hh => absurd hh.2 (lt_irrefl (0 : Int)))] at hs
        by_cases hC : env.check_signature rrsig j key covered 0 ≠ 0
        · rw [if_pos hC] at hs
          obtain ⟨j', hj', hP⟩ := ih ret h0 hs
          exact ⟨j', List.mem_cons_of_mem _ hj', hP⟩
        · refine ⟨j, List.mem_cons_self j rest, not_not.mp hA, ?_, ?_⟩
          · unfold sigTrim
            rw [if_neg hW]
            exact not_not.mp hC
          · intro hflag
            exact absurd hflag hW

/-- If the section loop reaches zero from a nonzero running value, some
RRSIG RR set in the section holds an accepted signature. -/
theorem secLoop_eq_zero (env : DnssecEnv) (pkt : Packet) (covered keys : RRset)
    (key_pos : Nat) (key : DnssecKey) (zone : Dname) (ts : Nat) (n3 : Bool) :
    ∀ (sets : List RRset) (ret : Int), ret ≠ 0 →
      secLoop env pkt covered keys key_pos key zone ts n3 sets ret = 0 →
      ∃ rrsig ∈ sets, rrsig.rtype = RRTYPE_RRSIG ∧
        ∃ j, j < rrsig.rrs.length ∧
          acceptedSigAt env pkt covered keys key_pos key zone ts n3 rrsig j := by
  intro sets
  induction sets with
  | nil =>
    intro ret h0 hs
    simp only [secLoop] at hs
    exact absurd hs h0
  | cons rrsig rest ih =>
    intro ret h0 hs
    simp only [secLoop] at hs
    by_cases hT : rrsig.rtype ≠ RRTYPE_RRSIG
    · rw [if_pos hT] at hs
      obtain ⟨r', hr', hP⟩ := ih ret h0 hs
      exact ⟨r', List.mem_cons_of_mem _ hr', hP⟩
    · rw [if_neg hT] at hs
      by_cases hz : sigLoop env pkt covered keys key_pos key zone ts n3 rrsig
          (List.range rrsig.rrs.length) ret = kr_ok
      · obtain ⟨j, hj, hP⟩ := sigLoop_eq_zero env pkt covered keys key_pos key
          zone ts n3 rrsig (List.range rrsig.rrs.length) ret h0 hz
        exact ⟨rrsig, List.mem_cons_self _ _, not_not.mp hT, j,
          List.mem_range.mp hj, hP⟩
      · rw [if_neg hz] at hs
        obtain ⟨r', hr', hP⟩ := ih _ hz hs
        exact ⟨r', List.mem_cons_of_mem _ hr', hP⟩

/-- Success characterisation of `kr_rrset_validate_with_key`: the working
key was obtained successfully and some RRSIG in the section was accepted
under it. -/
theorem with_key_eq_zero (env : DnssecEnv) (pkt : Packet) (sid : SectionId)
    (covered keys : RRset) (key_pos : Nat) (okey : Option DnssecKey)
    (zone : Dname) (ts : Nat) (n3 : Bool)
    (h : kr_rrset_validate_with_key env pkt sid covered keys key_pos okey zone
      ts n3 = 0) :
    (usedKey env keys key_pos okey).1 = 0 ∧
    ∃ rrsig ∈ pktSection pkt sid, rrsig.rtype = RRTYPE_RRSIG ∧
      ∃ j, j < rrsig.rrs.length ∧
        acceptedSigAt env pkt covered keys key_pos
          (usedKey env keys key_pos okey).2 zone ts n3 rrsig j := by
  have hen : kr_error ENOENT ≠ 0 := by decide
  cases okey with
  | some k =>
    exact ⟨rfl, secLoop_eq_zero env pkt covered keys key_pos k zone ts n3
      (pktSection pkt sid) (kr_error ENOENT) hen h⟩
  | none =>
    by_cases hck : (kr_dnssec_key_from_rdata env (some keys.owner)
        ((keys.rrs.getD key_pos defaultRdata).raw)).1 ≠ 0
    · unfold kr_rrset_validate_with_key at h
      dsimp only at h
      rw [if_pos hck] at h
      exact absurd h hck
    · unfold kr_rrset_validate_with_key at h
      dsimp only at h
      rw [if_neg hck] at h
      exact ⟨not_not.mp hck, secLoop_eq_zero env pkt covered keys key_pos _
        zone ts n3 (pktSection pkt sid) (kr_error ENOENT) hen h⟩

/-- An accepted signature yields the existence statement of the claimed
invariant. -/
theorem acceptedSig_good (env : DnssecEnv) (pkt : Packet) (sid : SectionId)
    (covered keys : RRset) (key_pos : Nat) (key : DnssecKey) (zone : Dname)
    (ts : Nat) (n3 : Bool) (rrsig : RRset) (j : Nat)
    (hmem : rrsig ∈ pktSection pkt sid) (htype : rrsig.rtype = RRTYPE_RRSIG)
    (hacc : acceptedSigAt env pkt covered keys key_pos key zone ts n3 rrsig j) :
    goodSigExists env pkt sid covered keys key_pos key zone ts := by
  obtain ⟨hv, hcs, -⟩ := hacc
  obtain ⟨rd, hrd, hcl, how, hsg, htc, hinc, hexp, -, -, htag⟩ :=
    validate_rrsig_rr_ok 0 covered rrsig j keys key_pos key env zone ts hv
  exact ⟨rrsig, hmem, htype, j, rd, hrd, how, hcl, hsg, hinc, hexp, htc, htag,
    _, hcs⟩

/-- The `kr_rrset_validate` loop succeeds only through a successful
`kr_rrset_validate_with_key` at some listed key position. -/
theorem validate_go_eq_zero (env : DnssecEnv) (pkt : Packet) (sid : SectionId)
    (covered keys : RRset) (zone : Dname) (ts : Nat) (n3 : Bool) :
    ∀ l, kr_rrset_validate_go env pkt sid covered keys zone ts n3 l = 0 →
      ∃ i ∈ l, kr_rrset_validate_with_key env pkt sid covered keys i none zone
        ts n3 = 0 := by
  intro l
  induction l with
  | nil =>
    intro h
    simp only [kr_rrset_validate_go] at h
    exact absurd h (by decide)
  | cons i rest ih =>
    intro h
    simp only [kr_rrset_validate_go] at h
    by_cases hi : kr_rrset_validate_with_key env pkt sid covered keys i none
        zone ts n3 = 0
    · exact ⟨i, List.mem_cons_self i rest, hi⟩
    · rw [if_neg hi] at h
      obtain ⟨i', hi', hP⟩ := ih h
      exact ⟨i', List.mem_cons_of_mem _ hi', hP⟩

/-- C1: `kr_rrset_validate` (and `kr_rrset_validate_with_key`) returns 0
only if the section holds an RRSIG RR covering the RR set, within its
validity window at `timestamp`, with signer name equal to the zone cut and
matching key tag, whose signature check succeeded under the key in use —
for `kr_rrset_validate`, a key built from one of the supplied DNSKEYs. -/
theorem claim_C1 (env : DnssecEnv) (pkt : Packet) (sid : SectionId)
    (covered keys : RRset) (zone : Dname) (ts : Nat) (n3 : Bool) :
    (kr_rrset_validate env pkt sid covered keys zone ts n3 = 0 →
      ∃ kp, kp < keys.rrs.length ∧
        (kr_dnssec_key_from_rdata env (some keys.owner)
          ((keys.rrs.getD kp defaultRdata).raw)).1 = 0 ∧
        goodSigExists env pkt sid covered keys kp
          (kr_dnssec_key_from_rdata env (some keys.owner)
            ((keys.rrs.getD kp defaultRdata).raw)).2 zone ts) ∧
    (∀ kp okey,
      kr_rrset_validate_with_key env pkt sid covered keys kp okey zone ts n3
          = 0 →
      (usedKey env keys kp okey).1 = 0 ∧
      goodSigExists env pkt sid covered keys kp (usedKey env keys kp okey).2
        zone ts) := by
  constructor
  · intro h
    obtain ⟨i, hi, hP⟩ := validate_go_eq_zero env pkt sid covered keys zone ts
      n3 (List.range keys.rrs.length) h
    obtain ⟨hu, rrsig, hmem, htype, j, hj, hacc⟩ :=
      with_key_eq_zero env pkt sid covered keys i none zone ts n3 hP
    exact ⟨i, List.mem_range.mp hi, hu,
      acceptedSig_good env pkt sid covered keys i _ zone ts n3 rrsig j hmem
        htype hacc⟩
  · intro kp okey h
    obtain ⟨hu, rrsig, hmem, htype, j, hj, hacc⟩ :=
      with_key_eq_zero env pkt sid covered keys kp okey zone ts n3 h
    exact ⟨hu, acceptedSig_good env pkt sid covered keys kp _ zone ts n3 rrsig
      j hmem htype hacc⟩

/-- C1 witness: a concrete successful validation. -/
theorem claim_C1_witness :
    ∃ kp, kp < tstKeys.rrs.length ∧
      (kr_dnssec_key_from_rdata tstEnv (some tstKeys.owner)
        ((tstKeys.rrs.getD kp defaultRdata).raw)).1 = 0 ∧
      goodSigExists tstEnv tstPkt .answer tstCovered tstKeys kp
        (kr_dnssec_key_from_rdata tstEnv (some tstKeys.owner)
          ((tstKeys.rrs.getD kp defaultRdata).raw)).2 [[97]] 5 :=
  (claim_C1 tstEnv tstPkt .answer tstCovered tstKeys [[97]] 5 false).1
    (by decide)

/-- C4: when `kr_rrset_validate_with_key` accepts a signature whose
WILDCARD_EXPANSION flag was set, the wildcard answer response check over the
authority section also succeeded (NSEC without NSEC3, otherwise NSEC3 with
closest-encloser parameter `trim - 1`); and when that check fails, the
signature is not accepted and the loop continues with the next signature,
carrying the check's error as the running result. -/
theorem claim_C4 (env : DnssecEnv) (pkt : Packet) (sid : SectionId)
    (covered keys : RRset) (key_pos : Nat) (zone : Dname) (ts : Nat)
    (n3 : Bool) :
    (∀ okey,
      kr_rrset_validate_with_key env pkt sid covered keys key_pos okey zone ts
          n3 = 0 →
      ∃ rrsig ∈ pktSection pkt sid, rrsig.rtype = RRTYPE_RRSIG ∧
        ∃ j, j < rrsig.rrs.length ∧
          (validate_rrsig_rr 0 covered rrsig j keys key_pos
            (usedKey env keys key_pos okey).2 env zone ts).1 = 0 ∧
          env.check_signature rrsig j (usedKey env keys key_pos okey).2 covered
            (sigTrim env covered rrsig keys key_pos
              (usedKey env keys key_pos okey).2 zone ts j) = 0 ∧
          ((validate_rrsig_rr 0 covered rrsig j keys key_pos
              (usedKey env keys key_pos okey).2 env zone ts).2 &&&
              FLG_WILDCARD_EXPANSION ≠ 0 →
            (n3 = false →
              env.nsec_wildcard_check pkt .authority covered.owner = 0) ∧
            (n3 = true →
              env.nsec3_wildcard_check pkt .authority covered.owner
                (wildcard_radix_len_diff covered.owner rrsig j - 1) = 0))) ∧
    (∀ (key : DnssecKey) (rrsig : RRset) (j : Nat) (rest : List Nat)
        (ret : Int),
      (validate_rrsig_rr 0 covered rrsig j keys key_pos key env zone ts).1 = 0 →
      (validate_rrsig_rr 0 covered rrsig j keys key_pos key env zone ts).2 &&&
        FLG_WILDCARD_EXPANSION ≠ 0 →
      ¬ (wildcard_radix_len_diff covered.owner rrsig j < 0) →
      env.check_signature rrsig j key covered
        (wildcard_radix_len_diff covered.owner rrsig j) = 0 →
      wcCheckResult env pkt covered rrsig n3
        (wildcard_radix_len_diff covered.owner rrsig j) ≠ 0 →
      sigLoop env pkt covered keys key_pos key zone ts n3 rrsig (j :: rest)
          ret =
        sigLoop env pkt covered keys key_pos key zone ts n3 rrsig rest
          (wcCheckResult env pkt covered rrsig n3
            (wildcard_radix_len_diff covered.owner rrsig j))) := by
  constructor
  · intro okey h
    obtain ⟨-, rrsig, hmem, htype, j, hj, hacc⟩ :=
      with_key_eq_zero env pkt sid covered keys key_pos okey zone ts n3 h
    refine ⟨rrsig, hmem, htype, j, hj, hacc.1, hacc.2.1, ?_⟩
    intro hflag
    have hwc := hacc.2.2 hflag
    unfold wcCheckResult at hwc
    constructor
    · intro hn3
      subst hn3
      simpa using hwc
    · intro hn3
      subst hn3
      simpa using hwc
  · intro key rrsig j rest ret hA hW hT hC hR
    simp only [sigLoop]
    rw [if_neg (by simp [hA])]
    simp only [if_pos hW]
    rw [if_neg (fun hh => hT hh.2), if_neg (by simp [hC])]
    unfold wcCheckResult at hR ⊢
    rw [if_pos hR]

/-- C4 witness: a concrete wildcard-expanded validation in which the NSEC3
wildcard answer check with parameter `trim - 1 = 1` succeeded. -/
theorem claim_C4_witness :
    ∃ rrsig ∈ pktSection wcPkt .answer, rrsig.rtype = RRTYPE_RRSIG ∧
      ∃ j, j < rrsig.rrs.length ∧
        (validate_rrsig_rr 0 wcCovered rrsig j tstKeys 0
          (usedKey (envExpectTrim 2) tstKeys 0 (some 1)).2 (envExpectTrim 2)
          [[97]] 5).1 = 0 ∧
        (envExpectTrim 2).check_signature rrsig j
          (usedKey (envExpectTrim 2) tstKeys 0 (some 1)).2 wcCovered
          (sigTrim (envExpectTrim 2) wcCovered rrsig tstKeys 0
            (usedKey (envExpectTrim 2) tstKeys 0 (some 1)).2 [[97]] 5 j) = 0 ∧
        ((validate_rrsig_rr 0 wcCovered rrsig j tstKeys 0
            (usedKey (envExpectTrim 2) tstKeys 0 (some 1)).2 (envExpectTrim 2)
            [[97]] 5).2 &&& FLG_WILDCARD_EXPANSION ≠ 0 →
          (true = false →
            (envExpectTrim 2).nsec_wildcard_check wcPkt .authority
              wcCovered.owner = 0) ∧
          (true = true →
            (envExpectTrim 2).nsec3_wildcard_check wcPkt .authority
              wcCovered.owner
              (wildcard_radix_len_diff wcCovered.owner rrsig j - 1) = 0)) :=
  (claim_C4 (envExpectTrim 2) wcPkt .answer wcCovered tstKeys 0 [[97]] 5
    true).1 (some 1) (by decide)

/-- C6 counterexample: the array holds an entry with the same `qry_uid` and
RR-set key (found by the scan), but adding the same RR set with a
*different* rank fails with `EEXIST` and leaves the array unchanged — the
rank is never raised to the maximum. -/
theorem claim_C6_cex :
    findMergeIdx cexArr1 1 rrEntA = some 0 ∧
    (cexArr1.getD 0 defaultEntry).rank = 1 ∧
    (cexArr1.getD 0 defaultEntry).cached = false ∧
    (kr_ranked_rrarray_add catMerge cexArr1 rrEntA 2 true 1).1
      = kr_error EEXIST ∧
    (kr_ranked_rrarray_add catMerge cexArr1 rrEntA 2 true 1).2 = cexArr1 := by
  decide

/-- C6 amended: when the backward scan (stopping at yielded or foreign-query
entries) finds a matching entry, the call succeeds only if the new rank
*equals* the stored rank and the entry is not cached: then the rdata sets
are merged (`knot_rdataset_merge`), `to_wire` is or-ed, and the rank stays
unchanged; on a rank mismatch or a cached entry the call fails with
`EEXIST` and the array is unchanged. -/
theorem claim_C6_amended (mergeFn : List Rdata → List Rdata → List Rdata)
    (array : List RankedEntry) (rr : RRset) (rank : Nat) (to_wire : Bool)
    (qry_uid : Nat) (i : Nat)
    (hi : findMergeIdx array qry_uid rr = some i) :
    ((array.getD i defaultEntry).rank = rank ∧
        (array.getD i defaultEntry).cached = false →
      kr_ranked_rrarray_add mergeFn array rr rank to_wire qry_uid =
        (0, array.set i
          { array.getD i defaultEntry with
            to_wire := (array.getD i defaultEntry).to_wire || to_wire,
            rr := { (array.getD i defaultEntry).rr with
              rrs := mergeFn (array.getD i defaultEntry).rr.rrs rr.rrs } })) ∧
    ((array.getD i defaultEntry).rank ≠ rank ∨
        (array.getD i defaultEntry).cached = true →
      kr_ranked_rrarray_add mergeFn array rr rank to_wire qry_uid =
        (kr_error EEXIST, array)) := by
  constructor
  · rintro ⟨h1, h2⟩
    unfold kr_ranked_rrarray_add
    rw [hi]
    dsimp only
    rw [if_pos ⟨h1, by rw [h2]; decide⟩]
    rfl
  · intro h
    unfold kr_ranked_rrarray_add
    rw [hi]
    dsimp only
    rw [if_neg ?_]
    rintro ⟨hr, hc⟩
    rcases h with h | h
    · exact h hr
    · exact hc h

/-- C6 witness: a same-rank add merges, or-ing `to_wire` and concatenating
the rdata via the merge function. -/
theorem claim_C6_witness :
    kr_ranked_rrarray_add catMerge cexArr1 rrEntA 1 false 1 =
      (0, cexArr1.set 0
        { cexArr1.getD 0 defaultEntry with
          to_wire := (cexArr1.getD 0 defaultEntry).to_wire || false,
          rr := { (cexArr1.getD 0 defaultEntry).rr with
            rrs := catMerge (cexArr1.getD 0 defaultEntry).rr.rrs
              rrEntA.rrs } }) :=
  (claim_C6_amended catMerge cexArr1 rrEntA 1 false 1 0 (by decide)).1
    ⟨by decide, by decide⟩

/-! ### `rrsets_match` is symmetric -/

theorem rrsets_match_eq_true_iff (a b : RRset) :
    rrsets_match a b = true ↔
      (a.rtype = b.rtype ∧ a.rclass = b.rclass ∧
        (b.rtype = RRTYPE_RRSIG →
          (a.rrs.headD defaultRdata).sig.type_covered =
            (b.rrs.headD defaultRdata).sig.type_covered) ∧
        dnameLower a.owner = dnameLower b.owner) := by
  unfold rrsets_match
  dsimp only
  by_cases hS : b.rtype = RRTYPE_RRSIG
  all_goals by_cases hT : a.rtype = b.rtype
  all_goals by_cases hC : a.rclass = b.rclass
  all_goals simp [hS, hT, hC, dnameEqb, Bool.and_eq_true, beq_iff_eq, and_assoc]
  all_goals tauto

theorem rrsets_match_symm (a b : RRset) :
    rrsets_match a b = rrsets_match b a := by
  rcases hba : rrsets_match b a
  · rcases hab : rrsets_match a b
    · rfl
    · exfalso
      obtain ⟨h1, h2, h3, h4⟩ := (rrsets_match_eq_true_iff a b).mp hab
      have hgood : rrsets_match b a = true :=
        (rrsets_match_eq_true_iff b a).mpr
          ⟨h1.symm, h2.symm, fun hh => (h3 (h1 ▸ hh)).symm, h4.symm⟩
      rw [hba] at hgood
      exact Bool.false_ne_true hgood
  · rcases hab : rrsets_match a b
    · exfalso
      obtain ⟨h1, h2, h3, h4⟩ := (rrsets_match_eq_true_iff b a).mp hba
      have hgood : rrsets_match a b = true :=
        (rrsets_match_eq_true_iff a b).mpr
          ⟨h1.symm, h2.symm, fun hh => (h3 (h1 ▸ hh)).symm, h4.symm⟩
      rw [hab] at hgood
      exact Bool.false_ne_true hgood
    · rfl

/-! ### Closed form of `to_wire_ensure_unique` -/

theorem ensure_unique_ret (array : List RankedEntry) (index : Nat)
    (h : index < array.length) : (to_wire_ensure_unique array index).1 = 0 := by
  unfold to_wire_ensure_unique
  rw [if_pos h]
  dsimp only
  split <;> rfl

theorem ensure_unique_length (array : List RankedEntry) (index : Nat)
    (h : index < array.length) :
    (to_wire_ensure_unique array index).2.length = array.length := by
  unfold to_wire_ensure_unique
  rw [if_pos h]
  dsimp only
  split
  · rfl
  · simp

theorem ensure_unique_getD (array : List RankedEntry) (index k : Nat)
    (hidx : index < array.length) (hk : k < array.length) :
    (to_wire_ensure_unique array index).2.getD k defaultEntry =
      (if (array.getD index defaultEntry).to_wire = true ∧
          (array.getD k defaultEntry).qry_uid ≠
            (array.getD index defaultEntry).qry_uid ∧
          (array.getD k defaultEntry).to_wire = true ∧
          rrsets_match ((array.getD k defaultEntry).rr)
            ((array.getD index defaultEntry).rr) = true
        then { array.getD k defaultEntry with to_wire := false }
        else array.getD k defaultEntry) := by
  unfold to_wire_ensure_unique
  rw [if_pos hidx]
  dsimp only
  by_cases h0 : (array.getD index defaultEntry).to_wire = true
  · rw [if_neg (by simpa using h0)]
    try dsimp only
    rw [getD_map_lt _ _ _ defaultEntry _ hk]
    try dsimp only
    by_cases h1 : (array.getD k defaultEntry).qry_uid =
        (array.getD index defaultEntry).qry_uid ∨
        ¬ (array.getD k defaultEntry).to_wire = true
    · rw [if_pos h1, if_neg ?_]
      rintro ⟨-, hq, htw, -⟩
      rcases h1 with h1 | h1
      · exact hq h1
      · exact h1 htw
    · rw [if_neg h1]
      rcases not_or.mp h1 with ⟨hq, htw⟩
      by_cases h2 : rrsets_match ((array.getD k defaultEntry).rr)
          ((array.getD index defaultEntry).rr) = true
      · rw [if_pos h2, if_pos ⟨h0, hq, not_not.mp htw, h2⟩]
      · rw [if_neg h2, if_neg (fun hh => h2 hh.2.2.2)]
  · rw [if_pos (by simpa using h0)]
    rw [if_neg (fun hh => h0 hh.1)]

theorem set_oob {α : Type} (l : List α) (i : Nat) (a : α)
    (h : l.length ≤ i) : l.set i a = l := by
  induction l generalizing i with
  | nil => rfl
  | cons x xs ih =>
    cases i with
    | zero => simp at h
    | succ i' =>
      simp only [List.set_cons_succ]
      rw [ih i' (by simpa using h)]

/-! ### The append path of `kr_ranked_rrarray_add` -/

/-- When the merge scan finds nothing, the add appends the new entry and
clears `to_wire` on every foreign-query entry forming the same RR set. -/
theorem add_append_getD (mergeFn : List Rdata → List Rdata → List Rdata)
    (array : List RankedEntry) (rr : RRset) (rank : Nat) (tw : Bool)
    (quid : Nat) (hnone : findMergeIdx array quid rr = none) :
    (kr_ranked_rrarray_add mergeFn array rr rank tw quid).1 = 0 ∧
    (kr_ranked_rrarray_add mergeFn array rr rank tw quid).2.length
      = array.length + 1 ∧
    (kr_ranked_rrarray_add mergeFn array rr rank tw quid).2.getD array.length
      defaultEntry = newRankedEntry rr rank tw quid ∧
    ∀ k, k < array.length →
      (kr_ranked_rrarray_add mergeFn array rr rank tw quid).2.getD k
        defaultEntry =
      (if tw = true ∧ (array.getD k defaultEntry).qry_uid ≠ quid ∧
          (array.getD k defaultEntry).to_wire = true ∧
          rrsets_match ((array.getD k defaultEntry).rr) rr = true
        then { array.getD k defaultEntry with to_wire := false }
        else array.getD k defaultEntry) := by
  have hE : (kr_ranked_rrarray_add mergeFn array rr rank tw quid) =
      to_wire_ensure_unique
        (array ++ [newRankedEntry rr rank tw quid])
        ((array ++ [newRankedEntry rr rank tw quid]).length - 1) := by
    unfold kr_ranked_rrarray_add
    rw [hnone]
    rfl
  have hA2len : (array ++ [newRankedEntry rr rank tw quid]).length = array.length + 1 := by simp
  have hidx : (array ++ [newRankedEntry rr rank tw quid]).length - 1 = array.length := by simp
  have hlt : array.length < (array ++ [newRankedEntry rr rank tw quid]).length := by simp
  have hlast : (array ++ [newRankedEntry rr rank tw quid]).getD array.length defaultEntry =
      newRankedEntry rr rank tw quid := by
    rw [List.getD_append_right _ _ _ _ (le_refl _)]
    simp
  have hold : ∀ k, k < array.length →
      (array ++ [newRankedEntry rr rank tw quid]).getD k defaultEntry = array.getD k defaultEntry :=
    fun k hk => List.getD_append _ _ _ _ hk
  rw [hE, hidx]
  refine ⟨ensure_unique_ret _ _ hlt, ?_, ?_, ?_⟩
  · rw [ensure_unique_length _ _ hlt, hA2len]
  · rw [ensure_unique_getD _ _ _ hlt hlt, hlast]
    rw [if_neg (fun hh => hh.2.1 rfl)]
  · intro k hk
    rw [ensure_unique_getD _ _ _ hlt (by rw [hA2len]; omega), hlast,
      hold k hk]
    rfl

/-- C5 counterexample: after three successful adds (`A` for query 1, `B` for
query 2, `A` again for query 1 — the scan stops at query 2's entry, so the
duplicate is appended and same-query entries are never deduplicated), two
distinct entries both have `to_wire = true` and the same RR-set identity. -/
theorem claim_C5_cex :
    (kr_ranked_rrarray_add catMerge cexArr2 rrEntA 1 true 1).1 = 0 ∧
    cexArr3.length = 3 ∧
    (cexArr3.getD 0 defaultEntry).to_wire = true ∧
    (cexArr3.getD 2 defaultEntry).to_wire = true ∧
    rrsets_match ((cexArr3.getD 0 defaultEntry).rr)
      ((cexArr3.getD 2 defaultEntry).rr) = true := by
  decide

/-- The append path preserves cross-query to-wire uniqueness. -/
theorem add_append_crossWireUnique (mergeFn : List Rdata → List Rdata → List Rdata)
    (array : List RankedEntry) (rr : RRset) (rank : Nat) (tw : Bool)
    (quid : Nat) (hnone : findMergeIdx array quid rr = none)
    (hcross : crossWireUnique array) :
    crossWireUnique (kr_ranked_rrarray_add mergeFn array rr rank tw quid).2 := by
  obtain ⟨-, hlen, hlast, hold⟩ := add_append_getD mergeFn array rr rank tw
    quid hnone
  have hent : ∀ k, k < array.length →
      ((kr_ranked_rrarray_add mergeFn array rr rank tw quid).2.getD k
          defaultEntry).qry_uid = (array.getD k defaultEntry).qry_uid ∧
      ((kr_ranked_rrarray_add mergeFn array rr rank tw quid).2.getD k
          defaultEntry).rr = (array.getD k defaultEntry).rr ∧
      (((kr_ranked_rrarray_add mergeFn array rr rank tw quid).2.getD k
          defaultEntry).to_wire = true →
        (array.getD k defaultEntry).to_wire = true ∧
        ¬ (tw = true ∧ (array.getD k defaultEntry).qry_uid ≠ quid ∧
            (array.getD k defaultEntry).to_wire = true ∧
            rrsets_match ((array.getD k defaultEntry).rr) rr = true)) := by
    intro k hk
    rw [hold k hk]
    by_cases hcond : tw = true ∧ (array.getD k defaultEntry).qry_uid ≠ quid ∧
        (array.getD k defaultEntry).to_wire = true ∧
        rrsets_match ((array.getD k defaultEntry).rr) rr = true
    · rw [if_pos hcond]
      exact ⟨rfl, rfl, fun hw => absurd hw (by simp)⟩
    · rw [if_neg hcond]
      exact ⟨rfl, rfl, fun hw => ⟨hw, hcond⟩⟩
  intro i hi j hj hq hwi hwj
  rw [hlen] at hi hj
  rcases (by omega : i < array.length ∨ i = array.length) with hi' | hieq
  · rcases (by omega : j < array.length ∨ j = array.length) with hj' | hjeq
    · obtain ⟨hqi, hri, hwi'⟩ := hent i hi'
      obtain ⟨hqj, hrj, hwj'⟩ := hent j hj'
      rw [hri, hrj]
      exact hcross i hi' j hj' (by rw [hqi, hqj] at hq; exact hq)
        (hwi' hwi).1 (hwj' hwj).1
    · subst hjeq
      obtain ⟨hqi, hri, hwi'⟩ := hent i hi'
      rw [hlast] at hwj hq
      rw [hri, hlast]
      obtain ⟨hwa, hnc⟩ := hwi' hwi
      by_contra hc
      rw [Bool.not_eq_false] at hc
      exact hnc ⟨hwj, by rw [hqi] at hq; exact hq, hwa, hc⟩
  · subst hieq
    rcases (by omega : j < array.length ∨ j = array.length) with hj' | hjeq
    · obtain ⟨hqj, hrj, hwj'⟩ := hent j hj'
      rw [hlast] at hwi hq
      rw [hrj, hlast]
      obtain ⟨hwa, hnc⟩ := hwj' hwj
      rw [rrsets_match_symm]
      by_contra hc
      rw [Bool.not_eq_false] at hc
      exact hnc ⟨hwi, by rw [hqj] at hq; exact fun hh => hq hh.symm, hwa, hc⟩
    · subst hjeq
      rw [hlast] at hq
      exact absurd rfl hq

/-- One body step of the `kr_ranked_rrarray_set_wire` loop with
`check_dups = true` (set `to_wire` at index `i`, then deduplicate from `i`)
preserves cross-query to-wire uniqueness. -/
theorem set_wire_step (array : List RankedEntry) (i : Nat) (tw : Bool)
    (hi : i < array.length) (hcross : crossWireUnique array) :
    crossWireUnique (to_wire_ensure_unique
      (array.set i { array.getD i defaultEntry with to_wire := tw }) i).2 := by
  set e' : RankedEntry := { array.getD i defaultEntry with to_wire := tw }
    with he'
  set A2 := array.set i e' with hA2
  have hA2len : A2.length = array.length := by
    rw [hA2, List.length_set]
  have hA2i : A2.getD i defaultEntry = e' := by
    rw [hA2]
    exact getD_set_self _ _ _ _ hi
  have hA2k : ∀ k, k ≠ i → A2.getD k defaultEntry = array.getD k defaultEntry := by
    intro k hk
    rw [hA2]
    exact getD_set_ne _ _ _ _ _ (fun hh => hk hh.symm)
  intro a ha b hb hq hwa hwb
  have hlen2 : (to_wire_ensure_unique A2 i).2.length = A2.length :=
    ensure_unique_length _ _ (by rw [hA2len]; exact hi)
  rw [hlen2, hA2len] at ha hb
  have hget : ∀ k, k < array.length →
      (to_wire_ensure_unique A2 i).2.getD k defaultEntry =
        (if e'.to_wire = true ∧
            (A2.getD k defaultEntry).qry_uid ≠ e'.qry_uid ∧
            (A2.getD k defaultEntry).to_wire = true ∧
            rrsets_match ((A2.getD k defaultEntry).rr) e'.rr = true
          then { A2.getD k defaultEntry with to_wire := false }
          else A2.getD k defaultEntry) := by
    intro k hk
    rw [ensure_unique_getD _ _ _ (by rw [hA2len]; exact hi)
      (by rw [hA2len]; exact hk), hA2i]
  have hres_i : (to_wire_ensure_unique A2 i).2.getD i defaultEntry = e' := by
    rw [hget i hi, hA2i, if_neg (fun hh => hh.2.1 rfl)]
  have hK : ∀ k, k < array.length → k ≠ i →
      ((to_wire_ensure_unique A2 i).2.getD k defaultEntry).qry_uid =
        (array.getD k defaultEntry).qry_uid ∧
      ((to_wire_ensure_unique A2 i).2.getD k defaultEntry).rr =
        (array.getD k defaultEntry).rr ∧
      (((to_wire_ensure_unique A2 i).2.getD k defaultEntry).to_wire = true →
        (array.getD k defaultEntry).to_wire = true ∧
        ¬ (e'.to_wire = true ∧
            (array.getD k defaultEntry).qry_uid ≠ e'.qry_uid ∧
            (array.getD k defaultEntry).to_wire = true ∧
            rrsets_match ((array.getD k defaultEntry).rr) e'.rr = true)) := by
    intro k hk hki
    rw [hget k hk, hA2k k hki]
    by_cases hcond : e'.to_wire = true ∧
        (array.getD k defaultEntry).qry_uid ≠ e'.qry_uid ∧
        (array.getD k defaultEntry).to_wire = true ∧
        rrsets_match ((array.getD k defaultEntry).rr) e'.rr = true
    · rw [if_pos hcond]
      exact ⟨rfl, rfl, fun hw => absurd hw (by simp)⟩
    · rw [if_neg hcond]
      exact ⟨rfl, rfl, fun hw => ⟨hw, hcond⟩⟩
  by_cases hai : a = i
  · subst hai
    by_cases hbi : b = a
    · subst hbi
      exact absurd rfl hq
    · obtain ⟨hqb, hrb, hwb'⟩ := hK b hb hbi
      obtain ⟨hwb2, hnc⟩ := hwb' hwb
      rw [hres_i] at hwa hq
      rw [hres_i, hrb, rrsets_match_symm]
      by_contra hc
      rw [Bool.not_eq_false] at hc
      refine hnc ⟨hwa, ?_, hwb2, hc⟩
      rw [hqb] at hq
      exact fun hh => hq hh.symm
  · by_cases hbi : b = i
    · subst hbi
      obtain ⟨hqa, hra, hwa'⟩ := hK a ha hai
      obtain ⟨hwa2, hnc⟩ := hwa' hwa
      rw [hres_i] at hwb hq
      rw [hres_i, hra]
      by_contra hc
      rw [Bool.not_eq_false] at hc
      refine hnc ⟨hwb, ?_, hwa2, hc⟩
      rw [hqa] at hq
      exact hq
    · obtain ⟨hqa, hra, hwa'⟩ := hK a ha hai
      obtain ⟨hqb, hrb, hwb'⟩ := hK b hb hbi
      rw [hra, hrb]
      exact hcross a ha b hb (by rw [hqa, hqb] at hq; exact hq)
        (hwa' hwa).1 (hwb' hwb).1

/-- The whole `kr_ranked_rrarray_set_wire` loop with `check_dups = true`
preserves cross-query to-wire uniqueness. -/
theorem set_wire_go_preserves (tw : Bool) (quid : Nat)
    (ec : Option (RankedEntry → Bool)) :
    ∀ (idxs : List Nat) (array : List RankedEntry), crossWireUnique array →
      crossWireUnique (set_wire_go tw quid true ec idxs array).2 := by
  intro idxs
  induction idxs with
  | nil =>
    intro array h
    exact h
  | cons i rest ih =>
    intro array h
    simp only [set_wire_go]
    by_cases h1 : (array.getD i defaultEntry).qry_uid ≠ quid
    · rw [if_pos h1]
      exact ih array h
    · rw [if_neg h1]
      by_cases h2 : extraCheckFails ec (array.getD i defaultEntry) = true
      · rw [if_pos h2]
        exact ih array h
      · rw [if_neg h2, if_pos trivial]
        by_cases h3 : i < array.length
        · have hr0 : (to_wire_ensure_unique
              (array.set i { array.getD i defaultEntry with to_wire := tw })
              i).1 = 0 :=
            ensure_unique_ret _ _ (by rw [List.length_set]; exact h3)
          rw [if_neg (by rw [hr0]; exact fun hh => hh rfl)]
          exact ih _ (set_wire_step array i tw h3 h)
        · have hset : array.set i
              { array.getD i defaultEntry with to_wire := tw } = array :=
            set_oob _ _ _ (Nat.le_of_not_lt h3)
          rw [hset]
          have hr1 : (to_wire_ensure_unique array i).1 = kr_error EINVAL := by
            unfold to_wire_ensure_unique
            rw [if_neg h3]
          have hr2 : (to_wire_ensure_unique array i).2 = array := by
            unfold to_wire_ensure_unique
            rw [if_neg h3]
          rw [if_pos (by rw [hr1]; decide)]
          dsimp only
          rw [hr2]
          exact h

/-- C5 amended: the to-wire uniqueness invariant holds only across
*different* query UIDs (same-query duplicates are never deduplicated), and
it is maintained by `kr_ranked_rrarray_add` when the call appends (no merge
candidate found by the scan) and by `kr_ranked_rrarray_set_wire` when
`check_dups` is true; a successful append also returns 0. -/
theorem claim_C5_amended :
    (∀ (mergeFn : List Rdata → List Rdata → List Rdata)
        (array : List RankedEntry) (rr : RRset) (rank : Nat) (tw : Bool)
        (quid : Nat),
      findMergeIdx array quid rr = none → crossWireUnique array →
      (kr_ranked_rrarray_add mergeFn array rr rank tw quid).1 = 0 ∧
      crossWireUnique (kr_ranked_rrarray_add mergeFn array rr rank tw quid).2) ∧
    (∀ (array : List RankedEntry) (tw : Bool) (quid : Nat)
        (ec : Option (RankedEntry → Bool)),
      crossWireUnique array →
      crossWireUnique (kr_ranked_rrarray_set_wire array tw quid true ec).2) := by
  constructor
  · intro mergeFn array rr rank tw quid hnone hcross
    exact ⟨(add_append_getD mergeFn array rr rank tw quid hnone).1,
      add_append_crossWireUnique mergeFn array rr rank tw quid hnone hcross⟩
  · intro array tw quid ec hcross
    exact set_wire_go_preserves tw quid ec (List.range array.length) array
      hcross

/-- C5 witness: the amended preservation at concrete arrays. -/
theorem claim_C5_witness :
    ((kr_ranked_rrarray_add catMerge cexArr1 rrEntB 1 true 2).1 = 0 ∧
      crossWireUnique (kr_ranked_rrarray_add catMerge cexArr1 rrEntB 1 true
        2).2) ∧
    crossWireUnique (kr_ranked_rrarray_set_wire cexArr1 true 1 true none).2 := by
  constructor
  · exact claim_C5_amended.1 catMerge cexArr1 rrEntB 1 true 2 (by decide)
      (by decide)
  · exact claim_C5_amended.2 cexArr1 true 1 none (by decide)

end KnotResolver
